import Mathlib

/-!
Verification of the module applier script (applier.py) of
virtual-puppet-project/godot-module-applier.

The script is a small command-line program that clones a list of "module"
repositories into a temporary workspace, merge-copies their modules/ and
thirdparty/ subdirectories into a target Godot source tree, applies patch
files, optionally runs a per-module helper script, writes a log of every
copied destination path, and can later undo the copies by deleting each
logged path (the clean subcommand).

This file gives a shallow embedding of the program:

* pure string manipulation (manifest parsing, path formatting, the log file
  encoding) is translated directly;
* the filesystem objects the program manipulates are modelled explicitly:
  a directory listing is an ordered association list of named entries;
* external processes (git, mkdir) are modelled by an environment record:
  the program never inspects their exit status, it only observes the
  filesystem afterwards, so each external command is modelled by the effect
  the environment says it had;
* Python exceptions are modelled by returning the final state together with
  an optional error value.

Source line references are to src/applier.py.
-/

/-! ## Character-list helpers

The program reads and writes text files line by line.  We model file
contents as Lean strings and implement the handful of Python string
operations the script uses (split with a maximum split count, splitlines,
readlines + strip) over the underlying character lists.
-/

/-- Remove an expected leading character sequence: `dropPre pre l` returns
`some rest` when `l = pre ++ rest`, and `none` otherwise.  Used to decode
the logged destination paths back into a section (modules/ or thirdparty/)
plus an entry name, mirroring what `rm -rf <path>` ultimately removes. -/
def dropPre : List Char → List Char → Option (List Char)
  | [], rest => some rest
  | _ :: _, [] => none
  | a :: as, b :: bs => if a = b then dropPre as bs else none

/-- Split a character list at every newline, the way Python's line-oriented
file reads do.  A trailing newline yields a final empty piece (harmless for
this program: empty lines are skipped by every consumer). -/
def splitNl : List Char → List (List Char)
  | [] => [[]]
  | c :: cs =>
    if c = '\n' then [] :: splitNl cs
    else
      match splitNl cs with
      | [] => [[c]]
      | t :: ts => (c :: t) :: ts

/-- Python's str.strip(): drop whitespace from both ends. -/
def pyStrip (l : List Char) : List Char :=
  ((l.dropWhile (fun c => c.isWhitespace)).reverse.dropWhile (fun c => c.isWhitespace)).reverse

/-- Python's line.split(" ", 1): split at the first space character only.
Returns `none` when the list holds no space. -/
def splitCharOnce : List Char → Option (List Char × List Char)
  | [] => none
  | c :: cs =>
    if c = ' ' then some ([], cs)
    else (splitCharOnce cs).map (fun p => (c :: p.1, p.2))

/-- Split at the first maximal run of whitespace, the way the specification
text describes manifest lines ("split on the first whitespace run").  Only
used to compare the specification's wording against the code. -/
def splitWsRun : List Char → Option (List Char × List Char)
  | [] => none
  | c :: cs =>
    if c.isWhitespace then some ([], cs.dropWhile (fun d => d.isWhitespace))
    else (splitWsRun cs).map (fun p => (c :: p.1, p.2))

/-- The "{}/{}" path formatting used throughout applier.py. -/
def fmt2 (a b : String) : String := a ++ "/" ++ b

/-! ## Filesystem model

A filesystem object is a file with contents or a directory with an ordered
listing of named entries; `DirUtil.list_dir` yields the listing order.
-/

/-- A filesystem object: a regular file, or a directory with an ordered
listing of named child entries. -/
inductive Entry where
  | file (content : String)
  | dir (entries : List (String × Entry))
deriving Repr

/-- The listing of one directory. -/
abbrev Listing := List (String × Entry)

/-- Whether a filesystem object is a directory. -/
def Entry.isDir : Entry → Bool
  | .dir _ => true
  | .file _ => false

/-- Look an entry up by name in a listing. -/
def lookupEntry : Listing → String → Option Entry
  | [], _ => none
  | (m, e) :: rest, n => if m = n then some e else lookupEntry rest n

/-- Write an entry: replace the entry of that name in place, or append a
new entry at the end of the listing. -/
def setEntry : Listing → String → Entry → Listing
  | [], n, e => [(n, e)]
  | (m, x) :: rest, n, e =>
    if m = n then (n, e) :: rest else (m, x) :: setEntry rest n e

/-- Effect of `rm -rf` on one named entry of a listing (applier.py line 278
deletes one logged child of modules/ or thirdparty/). -/
def eraseEntry (l : Listing) (n : String) : Listing :=
  l.filter (fun p => p.1 != n)

/-- The names of a listing, in listing order. -/
def namesOf (l : Listing) : List String := l.map Prod.fst

/-- Whether the named entry exists and is a directory
(`DirUtil.dir_exists`, applier.py lines 36-38). -/
def isDirAt (l : Listing) (n : String) : Bool :=
  match lookupEntry l n with
  | some (.dir _) => true
  | _ => false

/-! ## shutil.copytree and DirUtil.copy_dirs

`DirUtil.copy_dirs(from_dir, to_dir, force)` (applier.py lines 73-83) runs
`shutil.copytree(from_dir/name, to_dir/name, dirs_exist_ok=force)` for every
immediate entry of `from_dir` and accumulates the destination path strings.

shutil.copytree semantics, as modelled here:
* the source must be a directory, otherwise NotADirectoryError;
* the destination is created with makedirs(exist_ok=dirs_exist_ok): an
  existing destination directory is an error unless dirs_exist_ok, and an
  existing destination *file* is an error even with dirs_exist_ok;
* copying into a fresh destination reproduces the source tree;
* copying into an existing directory merges: source files overwrite
  same-named destination files, source subdirectories recurse, and
  per-entry failures (a file where a directory is expected and vice versa)
  are collected and raised together after the loop, so the remaining
  entries are still copied.
-/

mutual

/-- shutil.copytree of a source object into a destination slot currently
holding `old` (`none` when the destination path does not exist).  Returns
the new content of the slot and the list of errors raised. -/
def copytreeInto (force : Bool) : Entry → Option Entry → Option Entry × List String
  | .file _, old => (old, ["NotADirectoryError"])
  | .dir se, none => (some (.dir se), [])
  | .dir _, some (.file c) => (some (.file c), ["FileExistsError"])
  | .dir se, some (.dir de) =>
    if force then
      let r := mergeEntries force se de
      (some (.dir r.1), r.2)
    else (some (.dir de), ["FileExistsError"])

/-- The per-entry copy loop of shutil.copytree when the destination
directory already exists: source entries are written into the destination
listing one by one, collecting errors without stopping. -/
def mergeEntries (force : Bool) : List (String × Entry) → Listing → Listing × List String
  | [], de => (de, [])
  | (n, .file c) :: rest, de =>
    match lookupEntry de n with
    | some (.dir _) =>
      let r := mergeEntries force rest de
      (r.1, "IsADirectoryError" :: r.2)
    | _ => mergeEntries force rest (setEntry de n (.file c))
  | (n, .dir se) :: rest, de =>
    let c := copytreeInto force (.dir se) (lookupEntry de n)
    let de1 :=
      match c.1 with
      | some v => setEntry de n v
      | none => de
    let r := mergeEntries force rest de1
    (r.1, c.2 ++ r.2)

end

/-- DirUtil.copy_dirs (applier.py lines 73-83).  `fromL` is the listing of
from_dir, `toPath`/`toL` the path string and listing of to_dir.  Returns
the final listing of to_dir together with either the accumulated
changed_files list or the first exception: the loop stops at the first
copytree call that raises, leaving earlier iterations' effects in place and
returning no list (the caller's extend never runs). -/
def copy_dirs (fromL : Listing) (toPath : String) (toL : Listing) (force : Bool) :
    Listing × Except String (List String) :=
  match fromL with
  | [] => (toL, .ok [])
  | (n, e) :: rest =>
    let c := copytreeInto force e (lookupEntry toL n)
    let toL1 :=
      match c.1 with
      | some v => setEntry toL n v
      | none => toL
    match c.2 with
    | err :: _ => (toL1, .error err)
    | [] =>
      match copy_dirs rest toPath toL1 force with
      | (toL2, .error e) => (toL2, .error e)
      | (toL2, .ok files) => (toL2, .ok (fmt2 toPath n :: files))

/-! ## Manifest parsing -/

/-- One parsed manifest line (applier.py lines 209-215): the repository URL
and the branch, with the empty string standing for "no branch", exactly as
the code's sentinel. -/
structure ModuleSource where
  repository : String
  branch : String
deriving Repr, DecidableEq

/-- Parsing of one manifest line (applier.py lines 205-215): an empty line
(len(line) == 0) or a line starting with "#" yields nothing; otherwise
line.split(" ", 1) is applied, so the line is split at the first *space
character* and everything after it, verbatim, is the branch. -/
def parseLine (line : String) : Option ModuleSource :=
  match line.data with
  | [] => none
  | c :: _ =>
    if c = '#' then none
    else
      match splitCharOnce line.data with
      | none => some ⟨line, ""⟩
      | some (a, b) => some ⟨String.mk a, String.mk b⟩

/-- The manifest parsing rule as the specification words it (split on the
first whitespace *run*).  Stated only to compare with `parseLine`, which
follows the code. -/
def parseLineSpec (line : String) : Option ModuleSource :=
  match line.data with
  | [] => none
  | c :: _ =>
    if c = '#' then none
    else
      match splitWsRun line.data with
      | none => some ⟨line, ""⟩
      | some (a, b) => some ⟨String.mk a, String.mk b⟩

/-- modules_file_content.splitlines() (applier.py line 205), modelled as
splitting at newline characters. -/
def pyLines (s : String) : List String :=
  (splitNl s.data).map String.mk

/-! ## Program state -/

/-- Content of one cloned module repository, as far as the applier looks at
it: the optional modules/, thirdparty/ and patches/ subdirectories and
whether the well-known helper script file exists (applier.py lines 224-243). -/
structure Repo where
  modules : Option Listing
  thirdparty : Option Listing
  patches : Option (List String)
  helper : Bool
deriving Repr

/-- The part of the target Godot tree the program touches: the listings of
godot_dir/modules and godot_dir/thirdparty, plus an abstract ledger of the
patch effects currently present on tracked files.  Patches and `git
restore` act on tracked file contents, which merge-copy never creates, so
they are modelled as a separate component. -/
structure TargetTree where
  modules : Listing
  thirdparty : Listing
  patched : List String
deriving Repr

/-- The world the program runs against.
* `manifestContent`: content of the file named by args.modules_file,
  `none` when that file does not exist;
* `godotExists`: whether the target directory (the script's own directory,
  see get_godot_dir) exists;
* `gitAvailable`: whether shutil.which("git") finds git;
* `temp`: the temporary workspace directory: `none` when absent, otherwise
  its listing of cloned repositories;
* `tree`: the target tree;
* `log`: content of the .applied_modules file, `none` when absent;
* `cwdHasPathFile`: whether a readable file literally named "path" exists
  in the process working directory (see execute_helper_script);
* `scriptDir`: the directory containing applier.py itself. -/
structure World where
  manifestContent : Option String
  godotExists : Bool
  gitAvailable : Bool
  temp : Option (List (String × Repo))
  tree : TargetTree
  log : Option String
  cwdHasPathFile : Bool
  scriptDir : String
deriving Repr

/-- The parsed command-line arguments the apply/clean handlers receive
(applier.py lines 287-316). -/
structure Args where
  godot_directory : String
  modules_file : String
  force : Bool
deriving Repr, DecidableEq

/-- What one `git clone` subprocess did to the workspace.  The program
never checks the exit status (applier.py line 113), it only re-checks that
the workspace directory exists before the next clone, so the model lets the
environment report any of: a new checkout subdirectory, no visible effect
(the clone failed, e.g. a network error), or the workspace directory being
gone afterwards (external interference — exactly what the per-clone
existence check guards against). -/
inductive CloneOutcome where
  | created (name : String) (repo : Repo)
  | noEffect
  | workspaceGone
deriving Repr

/-- The environment: effects of the external processes the script runs but
never inspects. -/
structure Env where
  fetch : String → String → CloneOutcome
  mkdirWorks : Bool

/-! ## GitUtil and helpers -/

/-- GitUtil.git_clone (applier.py lines 91-115): returns False when the
working directory for the clone (always the temp workspace in this program)
does not exist, otherwise runs the git subprocess — whose outcome it does
not check — and returns True.  A checkout subdirectory whose name already
exists is left unchanged (git refuses to clone onto it and the error is
swallowed).  apply verifies git is on the path before any clone. -/
def git_clone (env : Env) (w : World) (url : String) (branch : String) : World × Bool :=
  match w.temp with
  | none => (w, false)
  | some entries =>
    match env.fetch url branch with
    | .created name repo =>
      if (entries.map Prod.fst).contains name then (w, true)
      else ({w with temp := some (entries ++ [(name, repo)])}, true)
    | .noEffect => (w, true)
    | .workspaceGone => ({w with temp := none}, true)

/-- GitUtil.git_restore_dir (applier.py lines 117-127): `git restore .`
discards uncommitted modifications of tracked files, i.e. the patch effects
ledger; the untracked files merge-copy created are untouched. -/
def git_restore_dir (t : TargetTree) : TargetTree :=
  {t with patched := []}

/-- GitUtil.apply_patches (applier.py lines 129-145): every file of the
patches directory whose name ends in "patch" is applied against the target
tree; the effect on tracked files is recorded in the ledger. -/
def apply_patches (patchFiles : List String) (t : TargetTree) : TargetTree :=
  {t with patched := t.patched ++ patchFiles.filter (fun f => f.endsWith "patch")}

/-- Result of running the helper script loader. -/
inductive HookResult where
  | ok
  | raised
deriving Repr, DecidableEq

/-- execute_helper_script (applier.py lines 148-167).  Line 152 reads
`open("path", "r")`: the literal string "path", not the `path` argument,
and this call stands *outside* the try block, so when no readable file
named "path" exists in the process working directory the FileNotFoundError
propagates to the caller.  When the open succeeds, everything that follows
is inside the try block and every failure is caught and printed — and one
always occurs, because line 158 calls types.ModuleTypes, an attribute that
does not exist (the class is types.ModuleType), so the entry function is
never reached and the hook has no effect. -/
def execute_helper_script (path : String) (cwdHasPathFile : Bool) : HookResult :=
  if cwdHasPathFile then .ok
  else .raised

/-- The conversion main() applies to the --force flag value (applier.py
lines 302-303): argparse with type=bool calls Python's bool() on the given
string, which is True exactly for a non-empty string; when the flag is
omitted the default False applies. -/
def forceOf (v : Option String) : Bool :=
  match v with
  | none => false
  | some s => !(s == "")

/-- DirUtil.get_godot_dir (applier.py lines 49-54): despite taking the
parsed arguments, it returns the directory of the script file itself and
ignores args (its own docstring says so). -/
def get_godot_dir (args : Args) (w : World) : String :=
  w.scriptDir

/-! ## apply -/

/-- The distinct exceptions apply can raise. -/
inductive ApplyErr where
  | manifestMissing
  | godotDirMissing
  | gitMissing
  | tempCreateFailed
  | cloneFailed (line : String)
  | copyFailed (msg : String)
  | hookRaised
deriving Repr, DecidableEq

/-- The clone loop inside apply (applier.py lines 205-218): for every
manifest line that parses, clone it into the workspace; the first clone
that returns False aborts with the offending line. -/
def cloneAll (env : Env) (w : World) : List String → World × Option String
  | [] => (w, none)
  | line :: rest =>
    match parseLine line with
    | none => cloneAll env w rest
    | some ms =>
      let r := git_clone env w ms.repository ms.branch
      if r.2 then cloneAll env r.1 rest else (r.1, some line)

/-- The per-repository body of apply's main loop (applier.py lines
224-243): merge-copy the repository's modules/ into godot_dir/modules and
its thirdparty/ into godot_dir/thirdparty, recording the destination paths,
then apply its patches and run its helper script.  A copytree exception or
the helper script's uncaught open("path") failure aborts, leaving the
partial tree in place. -/
def applyRepo (g : String) (force : Bool) (cwdHasPathFile : Bool) (t : TargetTree)
    (repoDir : String) (repo : Repo) : TargetTree × Except ApplyErr (List String) :=
  let step1 := copy_dirs (repo.modules.getD []) (fmt2 g "modules") t.modules force
  match step1.2 with
  | .error e => ({t with modules := step1.1}, .error (.copyFailed e))
  | .ok files1 =>
    let t1 := {t with modules := step1.1}
    let step2 := copy_dirs (repo.thirdparty.getD []) (fmt2 g "thirdparty") t1.thirdparty force
    match step2.2 with
    | .error e => ({t1 with thirdparty := step2.1}, .error (.copyFailed e))
    | .ok files2 =>
      let t2 := {t1 with thirdparty := step2.1}
      let t3 :=
        match repo.patches with
        | some ps => apply_patches ps t2
        | none => t2
      if repo.helper then
        match execute_helper_script (fmt2 repoDir "helper_script.py") cwdHasPathFile with
        | .ok => (t3, .ok (files1 ++ files2))
        | .raised => (t3, .error .hookRaised)
      else (t3, .ok (files1 ++ files2))

/-- apply's loop over the cloned repositories in the workspace (applier.py
lines 222-243), accumulating applied_files across repositories. -/
def applyModules (g : String) (force : Bool) (cwdHasPathFile : Bool) (t : TargetTree) :
    List (String × Repo) → TargetTree × Except ApplyErr (List String)
  | [] => (t, .ok [])
  | (name, repo) :: rest =>
    let r := applyRepo g force cwdHasPathFile t (fmt2 g (fmt2 "temp" name)) repo
    match r.2 with
    | .error e => (r.1, .error e)
    | .ok files1 =>
      match applyModules g force cwdHasPathFile r.1 rest with
      | (t2, .error e) => (t2, .error e)
      | (t2, .ok files2) => (t2, .ok (files1 ++ files2))

/-- The log file written by apply (applier.py lines 247-251): one applied
path per line, each terminated by a newline. -/
def encodeLog (files : List String) : List Char :=
  match files with
  | [] => []
  | p :: rest => p.data ++ '\n' :: encodeLog rest

/-- The log file as read back by clean (applier.py lines 266-269):
readlines, then strip each line. -/
def decodeLog (s : String) : List String :=
  (splitNl s.data).map (fun l => String.mk (pyStrip l))

/-- The apply subcommand (applier.py lines 170-251).  Returns the final
world and the exception raised, if any.
Order of operations, as in the source: validate the manifest file, the
godot directory and the git tool; remove a stale workspace and create a
fresh one (mkdir is fire-and-forget, so its success is re-checked); parse
the manifest and clone every module, aborting on a clone failure; then for
every workspace entry merge-copy, patch and run the hook; finally delete
the workspace and write the applied-paths log. -/
def apply (env : Env) (args : Args) (w : World) : World × Option ApplyErr :=
  match w.manifestContent with
  | none => (w, some .manifestMissing)
  | some content =>
    if !w.godotExists then (w, some .godotDirMissing)
    else if !w.gitAvailable then (w, some .gitMissing)
    else
      let w1 := if w.temp.isSome then {w with temp := none} else w
      let w2 := if env.mkdirWorks then {w1 with temp := some []} else w1
      if w2.temp.isNone then (w2, some .tempCreateFailed)
      else
        match cloneAll env w2 (pyLines content) with
        | (w3, some line) => (w3, some (.cloneFailed line))
        | (w3, none) =>
          let g := get_godot_dir args w3
          let r := applyModules g args.force w3.cwdHasPathFile w3.tree (w3.temp.getD [])
          match r.2 with
          | .error e => ({w3 with tree := r.1}, some e)
          | .ok files =>
            ({w3 with tree := r.1, temp := none, log := some (String.mk (encodeLog files))}, none)

/-! ## clean -/

/-- The exception clean can raise. -/
inductive CleanErr where
  | noPriorApply
deriving Repr, DecidableEq

/-- Effect of clean's per-path `rm -rf` (applier.py lines 273-278) on the
modelled tree: a logged path of the form godot_dir/modules/<name> or
godot_dir/thirdparty/<name> removes that entry when it exists as a
directory (the code checks dir_exists and skips otherwise); any other path
touches nothing this model tracks.  apply only ever logs paths of those two
shapes. -/
def rmLogged (g : String) (t : TargetTree) (p : String) : TargetTree :=
  match dropPre (fmt2 g "modules" ++ "/").data p.data with
  | some n =>
    if isDirAt t.modules (String.mk n) then
      {t with modules := eraseEntry t.modules (String.mk n)}
    else t
  | none =>
    match dropPre (fmt2 g "thirdparty" ++ "/").data p.data with
    | some n =>
      if isDirAt t.thirdparty (String.mk n) then
        {t with thirdparty := eraseEntry t.thirdparty (String.mk n)}
      else t
    | none => t

/-- The clean subcommand (applier.py lines 254-280): fail when the
applied-modules log does not exist; otherwise run `git restore .` on the
godot directory, read and strip the logged paths, delete each one that
exists, and finally delete the log file itself. -/
def clean (args : Args) (w : World) : World × Option CleanErr :=
  match w.log with
  | none => (w, some .noPriorApply)
  | some content =>
    let t0 := git_restore_dir w.tree
    let t1 := (decodeLog content).foldl (rmLogged (get_godot_dir args w)) t0
    ({w with tree := t1, log := none}, none)

/-! ## Derived notions used by the statements -/

/-- All modules/ content contributed by a list of cloned repositories, in
workspace order. -/
def modsOf (repos : List (String × Repo)) : Listing :=
  (repos.map (fun r => r.2.modules.getD [])).flatten

/-- All thirdparty/ content contributed by a list of cloned repositories,
in workspace order. -/
def thirdsOf (repos : List (String × Repo)) : Listing :=
  (repos.map (fun r => r.2.thirdparty.getD [])).flatten

/-- A string with no whitespace characters at all.  Entry names and the
script directory are required to be of this shape in the round-trip
statement, so that writing a destination path as a log line and reading it
back (readlines + strip) recovers it exactly. -/
def cleanStr (s : String) : Prop := ∀ c ∈ s.data, c.isWhitespace = false

/-- A cloned repository whose modules/ and thirdparty/ entry names are
whitespace-free. -/
def repoClean (r : Repo) : Prop :=
  (∀ q ∈ r.modules.getD [], cleanStr q.1) ∧ (∀ q ∈ r.thirdparty.getD [], cleanStr q.1)

/-- The destination paths a successful force-free apply run logs for a list
of cloned repositories, in the order apply writes them. -/
def pathsOfRepos (g : String) (repos : List (String × Repo)) : List String :=
  (repos.map (fun r =>
    (r.2.modules.getD []).map (fun q => fmt2 (fmt2 g "modules") q.1) ++
    (r.2.thirdparty.getD []).map (fun q => fmt2 (fmt2 g "thirdparty") q.1))).flatten

/-! ## Basic lemmas -/

theorem data_append (a b : String) : (a ++ b).data = a.data ++ b.data := rfl

theorem mk_data (s : String) : String.mk s.data = s := rfl

theorem splitCharOnce_no_space (l : List Char) (h : ' ' ∉ l) : splitCharOnce l = none := by
  induction l with
  | nil => rfl
  | cons c cs ih =>
    have hc : ¬ c = ' ' := fun hx => h (hx ▸ List.mem_cons_self c cs)
    simp [splitCharOnce, hc, ih (fun hx => h (List.mem_cons_of_mem c hx))]

theorem splitCharOnce_first (a b : List Char) (h : ' ' ∉ a) :
    splitCharOnce (a ++ ' ' :: b) = some (a, b) := by
  induction a with
  | nil => simp [splitCharOnce]
  | cons c cs ih =>
    have hc : ¬ c = ' ' := fun hx => h (hx ▸ List.mem_cons_self c cs)
    simp [splitCharOnce, hc, ih (fun hx => h (List.mem_cons_of_mem c hx))]

/-! ## C5: manifest line parsing -/

/-- C5 counterexample: the claim says every non-comment, non-empty line is
split on the first whitespace *run*; on the line "u\tb" (a tab between the
two words) the code performs no split at all, because line.split(" ", 1)
only splits at a space character, while the claimed rule yields repository
"u" and branch "b". -/
theorem manifest_line_whitespace_cex :
    parseLine "u\tb" = some ⟨"u\tb", ""⟩ ∧
    parseLineSpec "u\tb" = some ⟨"u", "b"⟩ ∧
    parseLine "u\tb" ≠ parseLineSpec "u\tb" := by
  refine ⟨by decide, by decide, by decide⟩

/-- C5 (amended): lines starting with "#" and empty lines yield no record;
a line without any space character becomes the repository with no branch;
and a line of the form a ++ " " ++ b with no space in a yields repository a
and branch b verbatim (the split is at the first *space character*, not at
a whitespace run, and the remainder is not trimmed). -/
theorem manifest_line_parsing :
    (∀ l : String, l.data.head? = some '#' → parseLine l = none) ∧
    parseLine "" = none ∧
    (∀ l : String, l.data ≠ [] → l.data.head? ≠ some '#' → ' ' ∉ l.data →
      parseLine l = some ⟨l, ""⟩) ∧
    (∀ a b : String, a.data.head? ≠ some '#' → ' ' ∉ a.data →
      parseLine (a ++ " " ++ b) = some ⟨a, b⟩) := by
  refine ⟨?_, rfl, ?_, ?_⟩
  · intro l hl
    cases hd : l.data with
    | nil => simp [hd] at hl
    | cons c cs =>
      rw [hd] at hl
      simp at hl
      simp [parseLine, hd, hl]
  · intro l hne hh hs
    cases hd : l.data with
    | nil => exact absurd hd hne
    | cons c cs =>
      rw [hd] at hh hs
      have hc : ¬ c = '#' := by simpa using hh
      have : splitCharOnce (c :: cs) = none := splitCharOnce_no_space _ hs
      simp [parseLine, hd, hc, this]
  · intro a b hh hs
    have hd : (a ++ " " ++ b).data = a.data ++ ' ' :: b.data := by
      simp [data_append]
    have hsplit : splitCharOnce ((a ++ " " ++ b).data) = some (a.data, b.data) := by
      rw [hd]; exact splitCharOnce_first _ _ hs
    obtain ⟨c, cs, hcons, hc⟩ : ∃ c cs, (a ++ " " ++ b).data = c :: cs ∧ ¬ c = '#' := by
      cases hda : a.data with
      | nil => exact ⟨' ', b.data, by rw [hd, hda]; rfl, by decide⟩
      | cons c cs =>
        refine ⟨c, cs ++ ' ' :: b.data, by rw [hd, hda]; rfl, ?_⟩
        rw [hda] at hh; simpa using hh
    rw [hcons] at hsplit
    simp only [parseLine, hcons]
    simp [hc, hsplit, mk_data]

/-- C5 witness: the amended rule evaluated on concrete lines. -/
theorem manifest_line_parsing_witness :
    parseLine "# note" = none ∧
    parseLine "https://example/modA" = some ⟨"https://example/modA", ""⟩ ∧
    parseLine "https://example/modB main" = some ⟨"https://example/modB", "main"⟩ :=
  ⟨manifest_line_parsing.1 "# note" (by decide),
   manifest_line_parsing.2.2.1 "https://example/modA" (by decide) (by decide) (by decide),
   manifest_line_parsing.2.2.2 "https://example/modB" "main" (by decide) (by decide)⟩

/-! ## C10: the --force flag conversion -/

/-- C10 counterexample: the claim states force is false only when the flag
is omitted entirely, but supplying the flag with the empty string value
also produces false (Python's bool("") is False). -/
theorem force_flag_empty_string_cex :
    forceOf (some "") = false ∧ some "" ≠ (none : Option String) := by
  exact ⟨rfl, by decide⟩

/-- C10 (amended): force is true exactly when the flag is supplied with a
non-empty string value — including the strings "False" and "0" — and false
when the flag is omitted or supplied with the empty string. -/
theorem force_flag_conversion :
    (∀ v : Option String, forceOf v = true ↔ ∃ s, v = some s ∧ s ≠ "") ∧
    forceOf (some "False") = true ∧ forceOf (some "0") = true ∧ forceOf none = false := by
  refine ⟨?_, by decide, by decide, rfl⟩
  intro v
  cases v with
  | none => simp [forceOf]
  | some s => simp [forceOf]

/-! ## C8: the --godot-directory flag -/

/-- C8 counterexample: two invocations differing only in the
--godot-directory flag resolve to the same target directory — the flag is
parsed but never read; get_godot_dir returns the script's own directory. -/
theorem godot_directory_flag_cex :
    get_godot_dir ⟨"/a", "modules_file.txt", false⟩
        ⟨none, true, true, none, ⟨[], [], []⟩, none, true, "G"⟩ =
      get_godot_dir ⟨"/b", "modules_file.txt", false⟩
        ⟨none, true, true, none, ⟨[], [], []⟩, none, true, "G"⟩ ∧
    ("/a" : String) ≠ "/b" := ⟨rfl, by decide⟩

/-- C8 (amended): the --godot-directory flag is accepted but ignored:
get_godot_dir always returns the script's directory, and two argument sets
that agree on everything except that flag make apply and clean behave
identically. -/
theorem godot_directory_flag_ignored (env : Env) (w : World) (a1 a2 : Args)
    (hm : a1.modules_file = a2.modules_file) (hf : a1.force = a2.force) :
    get_godot_dir a1 w = get_godot_dir a2 w ∧
    apply env a1 w = apply env a2 w ∧
    clean a1 w = clean a2 w := by
  cases a1 with
  | mk g1 m1 f1 =>
    cases a2 with
    | mk g2 m2 f2 =>
      simp only [Args.modules_file] at hm
      simp only [Args.force] at hf
      subst hm; subst hf
      exact ⟨rfl, rfl, rfl⟩

/-- C8 witness for the amended statement, at concrete arguments. -/
theorem godot_directory_flag_ignored_witness :
    get_godot_dir ⟨"/a", "m", true⟩ ⟨some "u", true, true, none, ⟨[], [], []⟩, none, true, "G"⟩ =
      get_godot_dir ⟨"/b", "m", true⟩ ⟨some "u", true, true, none, ⟨[], [], []⟩, none, true, "G"⟩ ∧
    apply ⟨fun _ _ => .noEffect, true⟩ ⟨"/a", "m", true⟩
        ⟨some "u", true, true, none, ⟨[], [], []⟩, none, true, "G"⟩ =
      apply ⟨fun _ _ => .noEffect, true⟩ ⟨"/b", "m", true⟩
        ⟨some "u", true, true, none, ⟨[], [], []⟩, none, true, "G"⟩ ∧
    clean ⟨"/a", "m", true⟩ ⟨some "u", true, true, none, ⟨[], [], []⟩, none, true, "G"⟩ =
      clean ⟨"/b", "m", true⟩ ⟨some "u", true, true, none, ⟨[], [], []⟩, none, true, "G"⟩ :=
  godot_directory_flag_ignored ⟨fun _ _ => .noEffect, true⟩
    ⟨some "u", true, true, none, ⟨[], [], []⟩, none, true, "G"⟩
    ⟨"/a", "m", true⟩ ⟨"/b", "m", true⟩ rfl rfl

/-! ## C7: apply's precondition checks -/

/-- C7: when the manifest file is missing, the godot directory is missing,
or git is not on the path, apply raises and returns the world exactly as it
was: no workspace is created or removed, nothing is copied or patched, and
no log is written. -/
theorem apply_preconditions_no_mutation (env : Env) (args : Args) (w : World)
    (h : w.manifestContent = none ∨ w.godotExists = false ∨ w.gitAvailable = false) :
    (apply env args w).1 = w ∧ ((apply env args w).2).isSome = true := by
  rcases h with h | h | h
  · simp [apply, h]
  · cases hm : w.manifestContent with
    | none => simp [apply, hm]
    | some c => simp [apply, hm, h]
  · cases hm : w.manifestContent with
    | none => simp [apply, hm]
    | some c =>
      cases hg : w.godotExists with
      | false => simp [apply, hm, hg]
      | true => simp [apply, hm, hg, h]

/-- C7 witness: a world whose manifest file is absent. -/
theorem apply_preconditions_no_mutation_witness :
    (apply ⟨fun _ _ => .noEffect, true⟩ ⟨"./", "modules_file.txt", false⟩
        ⟨none, true, true, none, ⟨[], [], []⟩, none, true, "G"⟩).1 =
      ⟨none, true, true, none, ⟨[], [], []⟩, none, true, "G"⟩ ∧
    ((apply ⟨fun _ _ => .noEffect, true⟩ ⟨"./", "modules_file.txt", false⟩
        ⟨none, true, true, none, ⟨[], [], []⟩, none, true, "G"⟩).2).isSome = true :=
  apply_preconditions_no_mutation _ _ _ (Or.inl rfl)

/-! ## C6: clean requires and consumes the log -/

/-- C6: clean raises when the applied-modules log does not exist, returning
the world untouched; a successful clean deletes the log, so a second clean
immediately afterwards fails with that error while leaving the first run's
deletions (and everything else) in place. -/
theorem clean_log_lifecycle (args : Args) (w : World) :
    (w.log = none → clean args w = (w, some .noPriorApply)) ∧
    (∀ w1, clean args w = (w1, none) →
      w1.log = none ∧ clean args w1 = (w1, some .noPriorApply)) := by
  constructor
  · intro h; simp [clean, h]
  · intro w1 h
    cases hl : w.log with
    | none => simp [clean, hl] at h
    | some content =>
      simp only [clean, hl] at h
      have hlog : w1.log = none := by
        have h1 := congrArg (fun p : World × Option CleanErr => p.1.log) h
        simpa using h1.symm
      exact ⟨hlog, by simp [clean, hlog]⟩

/-- C6 witness: a world with a log present; clean succeeds once and fails
the second time on the unchanged world. -/
theorem clean_log_lifecycle_witness :
    clean ⟨"./", "m", false⟩
        ⟨some "u", true, true, none, ⟨[], [], []⟩, some "", true, "G"⟩ =
      (⟨some "u", true, true, none, ⟨[], [], []⟩, none, true, "G"⟩, none) ∧
    (⟨some "u", true, true, none, ⟨[], [], []⟩, none, true, "G"⟩ : World).log = none ∧
    clean ⟨"./", "m", false⟩ ⟨some "u", true, true, none, ⟨[], [], []⟩, none, true, "G"⟩ =
      (⟨some "u", true, true, none, ⟨[], [], []⟩, none, true, "G"⟩, some .noPriorApply) := by
  have h1 : clean ⟨"./", "m", false⟩
      ⟨some "u", true, true, none, ⟨[], [], []⟩, some "", true, "G"⟩ =
      (⟨some "u", true, true, none, ⟨[], [], []⟩, none, true, "G"⟩, none) := rfl
  have h2 := (clean_log_lifecycle ⟨"./", "m", false⟩
      ⟨some "u", true, true, none, ⟨[], [], []⟩, some "", true, "G"⟩).2 _ h1
  exact ⟨h1, h2.1, h2.2⟩

/-! ## C2: helper script failures -/

/-- C2: the claim (and the specification) state that every failure while
loading or invoking a helper script is caught inside execute_helper_script
and never propagates.  The code contradicts this: applier.py line 152 opens
the literal file name "path" outside the try block, so whenever no readable
file called "path" exists in the process working directory the
FileNotFoundError escapes, and an apply run over a module that carries a
helper script aborts with it (evaluated below on such a run: the result is
the uncaught exception, not a completed apply). -/
theorem helper_script_failure_propagates :
    (∀ p : String, execute_helper_script p false = .raised) ∧
    apply ⟨fun _ _ => .created "m" ⟨none, none, none, true⟩, true⟩
        ⟨"./", "modules_file.txt", false⟩
        ⟨some "u", true, true, none, ⟨[], [], []⟩, none, false, "G"⟩ =
      (⟨some "u", true, true, some [("m", ⟨none, none, none, true⟩)], ⟨[], [], []⟩,
        none, false, "G"⟩, some .hookRaised) := by
  exact ⟨fun p => rfl, rfl⟩

/-! ## Listing lemmas -/

theorem lookupEntry_append_left {l1 : Listing} {n : String} {e : Entry} (l2 : Listing)
    (h : lookupEntry l1 n = some e) : lookupEntry (l1 ++ l2) n = some e := by
  induction l1 with
  | nil => simp [lookupEntry] at h
  | cons q rest ih =>
    obtain ⟨m, x⟩ := q
    by_cases hm : m = n
    · simp [lookupEntry, hm] at h ⊢; exact h
    · simp [lookupEntry, hm] at h ⊢; exact ih h

theorem lookupEntry_append_right {l1 : Listing} {n : String} (l2 : Listing)
    (h : lookupEntry l1 n = none) : lookupEntry (l1 ++ l2) n = lookupEntry l2 n := by
  induction l1 with
  | nil => rfl
  | cons q rest ih =>
    obtain ⟨m, x⟩ := q
    by_cases hm : m = n
    · simp [lookupEntry, hm] at h
    · simp [lookupEntry, hm] at h ⊢; exact ih h

theorem lookupEntry_eq_none_of_append {l1 l2 : Listing} {n : String}
    (h : lookupEntry (l1 ++ l2) n = none) : lookupEntry l1 n = none := by
  cases hl : lookupEntry l1 n with
  | none => rfl
  | some e => rw [lookupEntry_append_left l2 hl] at h; cases h

theorem lookupEntry_none_iff {l : Listing} {n : String} :
    lookupEntry l n = none ↔ n ∉ namesOf l := by
  induction l with
  | nil => simp [lookupEntry, namesOf]
  | cons q rest ih =>
    obtain ⟨m, x⟩ := q
    by_cases hm : m = n
    · simp [lookupEntry, hm, namesOf]
    · simp [lookupEntry, hm, namesOf, ih]
      intro h; exact fun hx => hm hx.symm

theorem setEntry_fresh {l : Listing} {n : String} (e : Entry)
    (h : lookupEntry l n = none) : setEntry l n e = l ++ [(n, e)] := by
  induction l with
  | nil => rfl
  | cons q rest ih =>
    obtain ⟨m, x⟩ := q
    by_cases hm : m = n
    · simp [lookupEntry, hm] at h
    · simp [lookupEntry, hm] at h
      simp [setEntry, hm, ih h]

theorem setEntry_self {l : Listing} {n : String} {e : Entry}
    (h : lookupEntry l n = some e) : setEntry l n e = l := by
  induction l with
  | nil => simp [lookupEntry] at h
  | cons q rest ih =>
    obtain ⟨m, x⟩ := q
    by_cases hm : m = n
    · simp [lookupEntry, hm] at h
      simp [setEntry, hm, h]
    · simp [lookupEntry, hm] at h
      simp [setEntry, hm, ih h]

theorem lookupEntry_setEntry_ne {l : Listing} {n m : String} (e : Entry)
    (h : ¬ m = n) : lookupEntry (setEntry l n e) m = lookupEntry l m := by
  have hnm : ¬ n = m := fun hx => h hx.symm
  induction l with
  | nil => simp [setEntry, lookupEntry, hnm]
  | cons q rest ih =>
    obtain ⟨k, x⟩ := q
    by_cases hk : k = n
    · simp [setEntry, hk, lookupEntry, hnm]
    · simp [setEntry, hk, lookupEntry]
      by_cases hkm : k = m
      · simp [hkm]
      · simp [hkm, ih]

theorem lookupEntry_setEntry_self (l : Listing) (n : String) (e : Entry) :
    lookupEntry (setEntry l n e) n = some e := by
  induction l with
  | nil => simp [setEntry, lookupEntry]
  | cons q rest ih =>
    obtain ⟨k, x⟩ := q
    by_cases hk : k = n
    · simp [setEntry, hk, lookupEntry]
    · simp [setEntry, hk, lookupEntry, ih]

theorem eraseEntry_append (l1 l2 : Listing) (n : String) :
    eraseEntry (l1 ++ l2) n = eraseEntry l1 n ++ eraseEntry l2 n := by
  simp [eraseEntry, List.filter_append]

theorem eraseEntry_of_fresh {l : Listing} {n : String}
    (h : lookupEntry l n = none) : eraseEntry l n = l := by
  induction l with
  | nil => rfl
  | cons q rest ih =>
    obtain ⟨m, x⟩ := q
    by_cases hm : m = n
    · simp [lookupEntry, hm] at h
    · simp [lookupEntry, hm] at h
      have hr := ih h
      show ((m, x) :: rest).filter (fun p => p.1 != n) = (m, x) :: rest
      have hcond : ((m, x).1 != n) = true := by simp [hm]
      rw [List.filter_cons, if_pos hcond]
      exact congrArg ((m, x) :: ·) hr

/-! ## copy_dirs lemmas -/

/-- Sufficient conditions for copy_dirs to succeed: every source entry is a
directory, no source entry name exists in the destination, and the source
names are distinct.  The destination listing gains exactly the source
entries, appended in listing order, and the returned changed_files list has
one formatted destination path per entry, in that order.  The force flag is
irrelevant in this situation. -/
theorem copy_dirs_fresh (p : String) (force : Bool) :
    ∀ (fromL toL : Listing),
      (∀ q ∈ fromL, q.2.isDir = true) →
      (∀ n ∈ namesOf fromL, lookupEntry toL n = none) →
      (namesOf fromL).Nodup →
      copy_dirs fromL p toL force = (toL ++ fromL, .ok (fromL.map (fun q => fmt2 p q.1)))
  | [], toL, _, _, _ => by simp [copy_dirs]
  | (n, e) :: rest, toL, hdir, hfresh, hnd => by
    cases e with
    | file c =>
      have hq := hdir (n, .file c) (by simp)
      simp [Entry.isDir] at hq
    | dir se =>
      have hn : lookupEntry toL n = none := hfresh n (by simp [namesOf])
      have hstep : copytreeInto force (.dir se) (lookupEntry toL n) = (some (.dir se), []) := by
        rw [hn]; simp [copytreeInto]
      have hset : setEntry toL n (.dir se) = toL ++ [(n, .dir se)] := setEntry_fresh _ hn
      have hnd' : (namesOf rest).Nodup := by
        simpa [namesOf] using hnd.of_cons
      have hnmem : n ∉ namesOf rest := by
        simp [namesOf] at hnd ⊢
        exact hnd.1
      have hfresh' : ∀ m ∈ namesOf rest, lookupEntry (toL ++ [(n, .dir se)]) m = none := by
        intro m hm
        have h1 : lookupEntry toL m = none := hfresh m (by simp [namesOf] at hm ⊢; exact Or.inr hm)
        rw [lookupEntry_append_right _ h1]
        have : ¬ n = m := fun hx => hnmem (hx ▸ hm)
        simp [lookupEntry, this]
      have ih := copy_dirs_fresh p force rest (toL ++ [(n, .dir se)])
        (fun q hq => hdir q (by simp [hq])) hfresh' hnd'
      simp only [copy_dirs, hstep, hset, ih]
      simp

/-- Inversion of a successful copy_dirs run with force=false: success means
every source entry was a directory with a fresh, unique name, the
destination gained exactly the source entries, and the returned list is one
destination path per entry in order. -/
theorem copy_dirs_false_ok_inv (p : String) :
    ∀ (fromL toL toL2 : Listing) (fs : List String),
      copy_dirs fromL p toL false = (toL2, .ok fs) →
      (∀ q ∈ fromL, q.2.isDir = true) ∧
      (∀ n ∈ namesOf fromL, lookupEntry toL n = none) ∧
      (namesOf fromL).Nodup ∧
      toL2 = toL ++ fromL ∧
      fs = fromL.map (fun q => fmt2 p q.1)
  | [], toL, toL2, fs, h => by
    simp [copy_dirs] at h
    simp [namesOf, h.1, h.2]
  | (n, e) :: rest, toL, toL2, fs, h => by
    cases e with
    | file c =>
      have hstep : copytreeInto false (.file c) (lookupEntry toL n)
          = (lookupEntry toL n, ["NotADirectoryError"]) := rfl
      simp only [copy_dirs, hstep] at h
      simp at h
    | dir se =>
      cases hn : lookupEntry toL n with
      | some old =>
        cases old with
        | file c =>
          have hstep : copytreeInto false (.dir se) (lookupEntry toL n)
              = (some (.file c), ["FileExistsError"]) := by rw [hn]; simp [copytreeInto]
          simp only [copy_dirs, hstep] at h
          simp at h
        | dir de =>
          have hstep : copytreeInto false (.dir se) (lookupEntry toL n)
              = (some (.dir de), ["FileExistsError"]) := by rw [hn]; simp [copytreeInto]
          simp only [copy_dirs, hstep] at h
          simp at h
      | none =>
        have hstep : copytreeInto false (.dir se) (lookupEntry toL n) = (some (.dir se), []) := by
          rw [hn]; simp [copytreeInto]
        have hset : setEntry toL n (.dir se) = toL ++ [(n, .dir se)] := setEntry_fresh _ hn
        rw [copy_dirs] at h
        rw [hstep] at h
        simp only [hset] at h
        cases hrec : copy_dirs rest p (toL ++ [(n, .dir se)]) false with
        | mk toL3 res =>
          cases res with
          | error msg => rw [hrec] at h; simp at h
          | ok files =>
            rw [hrec] at h
            simp at h
            obtain ⟨h2, h3⟩ := h
            obtain ⟨ihdir, ihfresh, ihnd, iheq, ihfs⟩ :=
              copy_dirs_false_ok_inv p rest (toL ++ [(n, .dir se)]) toL3 files hrec
            have hrest_fresh : ∀ m ∈ namesOf rest, lookupEntry toL m = none := by
              intro m hm
              exact lookupEntry_eq_none_of_append (ihfresh m hm)
            have hnotin : n ∉ namesOf rest := by
              intro hmem
              have := ihfresh n hmem
              rw [lookupEntry_append_right _ hn] at this
              simp [lookupEntry] at this
            constructor
            · intro q hq
              rcases List.mem_cons.mp hq with hq | hq
              · subst hq; rfl
              · exact ihdir q hq
            refine ⟨?_, ?_, ?_, ?_⟩
            · intro m hm
              simp [namesOf] at hm
              rcases hm with hm | hm
              · exact hm ▸ hn
              · exact hrest_fresh m (by simpa [namesOf] using hm)
            · simp [namesOf] at hnotin ihnd ⊢
              exact ⟨hnotin, ihnd⟩
            · subst h2; rw [iheq, List.append_assoc]; rfl
            · subst h3; simp [ihfs]
termination_by fromL _ _ _ _ => fromL.length

/-! ## C9: what merge-copy does per entry -/

/-- C9 counterexample: the claim says every immediate entry is copied
"whatever its kind"; a source directory whose immediate entry is a regular
file makes copy_dirs raise NotADirectoryError (shutil.copytree refuses
non-directory sources) and return no list, with either force value. -/
theorem copy_dirs_file_entry_cex :
    copy_dirs [("f", .file "x")] "p" [] false = ([], .error "NotADirectoryError") ∧
    copy_dirs [("f", .file "x")] "p" [] true = ([], .error "NotADirectoryError") := by
  constructor <;> simp [copy_dirs, copytreeInto, lookupEntry]

/-- C9 (amended): for every source directory all of whose immediate entries
are directories with distinct names not already present in the destination,
copy_dirs recursively copies each entry into the destination under the same
name (appending them in source listing order) and returns exactly one
destination path per immediate entry, in the order the source listing
yields them.  An immediate entry that is a regular file instead makes the
operation fail (see the counterexample). -/
theorem copy_dirs_entries (p : String) (force : Bool) (fromL toL : Listing)
    (hdir : ∀ q ∈ fromL, q.2.isDir = true)
    (hfresh : ∀ n ∈ namesOf fromL, lookupEntry toL n = none)
    (hnd : (namesOf fromL).Nodup) :
    copy_dirs fromL p toL force = (toL ++ fromL, .ok (fromL.map (fun q => fmt2 p q.1))) :=
  copy_dirs_fresh p force fromL toL hdir hfresh hnd

/-- C9 witness: two directory entries, evaluated concretely. -/
theorem copy_dirs_entries_witness :
    copy_dirs [("a", .dir [("x", .file "1")]), ("b", .dir [])] "P" [] false =
      ([("a", .dir [("x", .file "1")]), ("b", .dir [])], .ok ["P/a", "P/b"]) := by
  have h := copy_dirs_entries "P" false [("a", .dir [("x", .file "1")]), ("b", .dir [])] []
    (by decide) (fun n _ => rfl) (by decide)
  simpa [fmt2] using h

/-! ## mergeEntries lemmas (force=true behaviour) -/

/-- Merging never touches destination entries whose names do not occur in
the source listing. -/
theorem merge_keeps (se : List (String × Entry)) :
    ∀ (de : Listing) (m : String), m ∉ se.map Prod.fst →
      lookupEntry (mergeEntries true se de).1 m = lookupEntry de m := by
  induction se with
  | nil => intro de m _; simp [mergeEntries]
  | cons q rest ih =>
    obtain ⟨n, x⟩ := q
    intro de m hm
    have hmn : ¬ m = n := fun hx => hm (by rw [List.map_cons]; exact hx ▸ List.mem_cons_self _ _)
    have hmr : m ∉ rest.map Prod.fst :=
      fun hx => hm (by rw [List.map_cons]; exact List.mem_cons_of_mem _ hx)
    cases x with
    | file c =>
      cases hl : lookupEntry de n with
      | some old =>
        cases old with
        | dir d =>
          simp [mergeEntries, hl]
          exact ih de m hmr
        | file cf =>
          simp [mergeEntries, hl]
          rw [ih _ m hmr]
          exact lookupEntry_setEntry_ne _ hmn
      | none =>
        simp [mergeEntries, hl]
        rw [ih _ m hmr]
        exact lookupEntry_setEntry_ne _ hmn
    | dir sd =>
      simp [mergeEntries]
      cases hc : (copytreeInto true (.dir sd) (lookupEntry de n)).1 with
      | some v =>
        rw [ih _ m hmr]
        exact lookupEntry_setEntry_ne _ hmn
      | none =>
        exact ih de m hmr

/-- When a merge finishes without collecting any error, every source file
entry has overwritten (or created) the same-named destination file. -/
theorem merge_file_overwrite (se : List (String × Entry)) :
    ∀ (de : Listing) (m : String) (c : String),
      (se.map Prod.fst).Nodup → (m, Entry.file c) ∈ se →
      (mergeEntries true se de).2 = [] →
      lookupEntry (mergeEntries true se de).1 m = some (.file c) := by
  induction se with
  | nil => intro de m c _ hmem _; cases hmem
  | cons q rest ih =>
    obtain ⟨n, x⟩ := q
    intro de m c hnd hmem herr
    rw [List.map_cons, List.nodup_cons] at hnd
    have hnotin : n ∉ rest.map Prod.fst := hnd.1
    have hndr : (rest.map Prod.fst).Nodup := hnd.2
    rcases List.mem_cons.mp hmem with hhead | htail
    · injection hhead with h1 h2
      subst h1; subst h2
      cases hl : lookupEntry de m with
      | some old =>
        cases old with
        | dir d => simp [mergeEntries, hl] at herr
        | file cf =>
          simp [mergeEntries, hl] at herr ⊢
          rw [merge_keeps rest _ m hnotin]
          exact lookupEntry_setEntry_self de m (.file c)
      | none =>
        simp [mergeEntries, hl] at herr ⊢
        rw [merge_keeps rest _ m hnotin]
        exact lookupEntry_setEntry_self de m (.file c)
    · have hm_ne : ¬ m = n := by
        intro hx
        subst hx
        exact hnotin (List.mem_map_of_mem Prod.fst htail)
      cases x with
      | file cx =>
        cases hl : lookupEntry de n with
        | some old =>
          cases old with
          | dir d => simp [mergeEntries, hl] at herr
          | file cf =>
            simp [mergeEntries, hl] at herr ⊢
            exact ih _ m c hndr htail herr
        | none =>
          simp [mergeEntries, hl] at herr ⊢
          exact ih _ m c hndr htail herr
      | dir sd =>
        simp [mergeEntries] at herr ⊢
        exact ih _ m c hndr htail herr.2

/-! ## C4: the force-overwrite semantics of copy_dirs -/

/-- With force=false, a conflicting entry aborts the call while the
destination keeps the entries merged before it: the helper walks an
arbitrary successfully-merged prefix. -/
theorem copy_dirs_conflict_aux (p : String) :
    ∀ (pre : Listing) (toL toL1 : Listing) (fs : List String) (n : String)
      (w e : Entry) (rest : Listing),
      lookupEntry toL n = some w →
      copy_dirs pre p toL false = (toL1, .ok fs) →
      (copy_dirs (pre ++ (n, e) :: rest) p toL false).1 = toL1 ∧
      ∃ msg, (copy_dirs (pre ++ (n, e) :: rest) p toL false).2 = .error msg
  | [], toL, toL1, fs, n, w, e, rest, hw, hsucc => by
    have htoL : toL1 = toL := by simp [copy_dirs] at hsucc; exact hsucc.1.symm
    rw [htoL, List.nil_append]
    cases e with
    | file c =>
      have hstep : copytreeInto false (.file c) (lookupEntry toL n)
          = (some w, ["NotADirectoryError"]) := by rw [hw]; simp [copytreeInto]
      simp only [copy_dirs, hstep, setEntry_self hw]
      simp
    | dir se =>
      cases w with
      | file cw =>
        have hstep : copytreeInto false (.dir se) (lookupEntry toL n)
            = (some (.file cw), ["FileExistsError"]) := by rw [hw]; simp [copytreeInto]
        simp only [copy_dirs, hstep, setEntry_self hw]
        simp
      | dir dw =>
        have hstep : copytreeInto false (.dir se) (lookupEntry toL n)
            = (some (.dir dw), ["FileExistsError"]) := by rw [hw]; simp [copytreeInto]
        simp only [copy_dirs, hstep, setEntry_self hw]
        simp
  | (k, ek) :: pre2, toL, toL1, fs, n, w, e, rest, hw, hsucc => by
    obtain ⟨hdir, hfresh, -, -, -⟩ :=
      copy_dirs_false_ok_inv p ((k, ek) :: pre2) toL toL1 fs hsucc
    have hkdir := hdir (k, ek) (by simp)
    cases ek with
    | file c => simp [Entry.isDir] at hkdir
    | dir ske =>
      have hkfresh : lookupEntry toL k = none := hfresh k (by simp [namesOf])
      have hstep : copytreeInto false (.dir ske) (lookupEntry toL k) = (some (.dir ske), []) := by
        rw [hkfresh]; simp [copytreeInto]
      have hne : ¬ k = n := by
        intro hx; rw [hx, hw] at hkfresh; cases hkfresh
      have hw2 : lookupEntry (setEntry toL k (.dir ske)) n = some w := by
        rw [lookupEntry_setEntry_ne _ (fun hx => hne hx.symm)]; exact hw
      rw [copy_dirs, hstep] at hsucc
      simp only at hsucc
      cases hrec : copy_dirs pre2 p (setEntry toL k (.dir ske)) false with
      | mk toL3 res =>
        cases res with
        | error msg => rw [hrec] at hsucc; simp at hsucc
        | ok files =>
          rw [hrec] at hsucc
          simp at hsucc
          obtain ⟨hih1, msg, hih2⟩ :=
            copy_dirs_conflict_aux p pre2 (setEntry toL k (.dir ske)) toL3 files n w e rest
              hw2 hrec
          rw [List.cons_append, copy_dirs, hstep]
          simp only
          cases hinner : copy_dirs (pre2 ++ (n, e) :: rest) p (setEntry toL k (.dir ske)) false with
          | mk ti ri =>
            rw [hinner] at hih1 hih2
            simp at hih1 hih2
            rw [hih2]
            simp [hih1, hsucc.1]
termination_by pre _ _ _ _ _ _ _ _ _ => pre.length

/-- C4 (amended): with force=false, merge-copying a source entry whose name
already exists in the destination fails at that entry, leaving the entries
merged earlier in the same call in place and the conflicting destination
entry unchanged.  With force=true and the pre-existing entry a directory,
the source directory is merged *into* it — same-named files are
overwritten, destination entries with other names are kept — and the
operation succeeds when the merge collects no error (it is a merge, not a
replacement: see the counterexample). -/
theorem copy_dirs_force_semantics :
    (∀ (p : String) (toL toL1 : Listing) (fs : List String) (pre : Listing)
        (n : String) (w e : Entry) (rest : Listing),
      lookupEntry toL n = some w →
      copy_dirs pre p toL false = (toL1, .ok fs) →
      (copy_dirs (pre ++ (n, e) :: rest) p toL false).1 = toL1 ∧
      ∃ msg, (copy_dirs (pre ++ (n, e) :: rest) p toL false).2 = .error msg) ∧
    (∀ (p : String) (toL : Listing) (n : String) (se de : Listing),
      lookupEntry toL n = some (.dir de) →
      (mergeEntries true se de).2 = [] →
      copy_dirs [(n, .dir se)] p toL true =
        (setEntry toL n (.dir (mergeEntries true se de).1), .ok [fmt2 p n]) ∧
      (∀ m, m ∉ se.map Prod.fst →
        lookupEntry (mergeEntries true se de).1 m = lookupEntry de m) ∧
      (∀ m c, (se.map Prod.fst).Nodup → (m, Entry.file c) ∈ se →
        lookupEntry (mergeEntries true se de).1 m = some (.file c))) := by
  constructor
  · intro p toL toL1 fs pre n w e rest hw hsucc
    exact copy_dirs_conflict_aux p pre toL toL1 fs n w e rest hw hsucc
  · intro p toL n se de hl herr
    refine ⟨?_, fun m hm => merge_keeps se de m hm,
      fun m c hnd hmem => merge_file_overwrite se de m c hnd hmem herr⟩
    have hstep : copytreeInto true (.dir se) (lookupEntry toL n) =
        (some (.dir (mergeEntries true se de).1), []) := by
      rw [hl]; simp [copytreeInto, herr]
    rw [copy_dirs, hstep]
    simp [copy_dirs]

/-- C4 counterexample: with force=true the pre-existing destination entry
is not replaced but merged into: the destination directory modA keeps its
old file "keep" alongside the copied file "new", while replacement would
leave only "new". -/
theorem copy_dirs_force_true_merges_cex :
    copy_dirs [("modA", .dir [("new", .file "n")])] "T"
        [("modA", .dir [("keep", .file "k")])] true =
      ([("modA", .dir [("keep", .file "k"), ("new", .file "n")])], .ok ["T/modA"]) ∧
    ([("modA", Entry.dir [("keep", Entry.file "k"), ("new", Entry.file "n")])] : Listing) ≠
      [("modA", Entry.dir [("new", Entry.file "n")])] := by
  constructor
  · simp [copy_dirs, copytreeInto, mergeEntries, lookupEntry, setEntry]
    rfl
  · simp

/-- C4 witness: both force modes of the amended statement exercised on
concrete listings. -/
theorem copy_dirs_force_semantics_witness :
    ((copy_dirs ([] ++ ("x", Entry.dir []) :: []) "P" [("x", Entry.file "old")] false).1 =
        [("x", Entry.file "old")] ∧
      ∃ msg, (copy_dirs ([] ++ ("x", Entry.dir []) :: []) "P"
        [("x", Entry.file "old")] false).2 = .error msg) ∧
    copy_dirs [("m", Entry.dir [("a", Entry.file "v")])] "P"
        [("m", Entry.dir [("b", Entry.file "w")])] true =
      (setEntry [("m", Entry.dir [("b", Entry.file "w")])] "m"
        (Entry.dir (mergeEntries true [("a", Entry.file "v")] [("b", Entry.file "w")]).1),
       .ok [fmt2 "P" "m"]) := by
  constructor
  · exact copy_dirs_force_semantics.1 "P" [("x", Entry.file "old")] [("x", Entry.file "old")]
      [] [] "x" (Entry.file "old") (Entry.dir []) [] rfl rfl
  · exact (copy_dirs_force_semantics.2 "P" [("m", Entry.dir [("b", Entry.file "w")])] "m"
      [("a", Entry.file "v")] [("b", Entry.file "w")] rfl
      (by simp [mergeEntries, lookupEntry, setEntry])).1

/-! ## C3: clone failure handling -/

/-- git_clone only ever touches the workspace component. -/
theorem git_clone_preserves (env : Env) (w : World) (url br : String) :
    (git_clone env w url br).1.tree = w.tree ∧
    (git_clone env w url br).1.log = w.log ∧
    (git_clone env w url br).1.manifestContent = w.manifestContent := by
  cases ht : w.temp with
  | none => simp [git_clone, ht]
  | some entries =>
    cases hf : env.fetch url br with
    | created name repo =>
      by_cases hc : (entries.map Prod.fst).contains name <;> simp at hc <;>
        simp [git_clone, ht, hf, hc]
    | noEffect => simp [git_clone, ht, hf]
    | workspaceGone => simp [git_clone, ht, hf]

/-- The clone loop only ever touches the workspace component. -/
theorem cloneAll_preserves (env : Env) :
    ∀ (lines : List String) (w : World),
      (cloneAll env w lines).1.tree = w.tree ∧ (cloneAll env w lines).1.log = w.log
  | [], w => by simp [cloneAll]
  | line :: rest, w => by
    cases hp : parseLine line with
    | none =>
      simpa [cloneAll, hp] using cloneAll_preserves env rest w
    | some ms =>
      cases hg : git_clone env w ms.repository ms.branch with
      | mk w2 ok =>
        have hpres := git_clone_preserves env w ms.repository ms.branch
        rw [hg] at hpres
        cases ok with
        | true =>
          have hrec := cloneAll_preserves env rest w2
          simp [cloneAll, hp, hg]
          exact ⟨hrec.1.trans hpres.1, hrec.2.trans hpres.2.1⟩
        | false =>
          simp [cloneAll, hp, hg]
          exact ⟨hpres.1, hpres.2.1⟩

/-- applyRepo only ever fails with a copy error or the hook exception. -/
theorem applyRepo_err_shape (g : String) (force cwd : Bool) (t : TargetTree)
    (rd : String) (repo : Repo) (e : ApplyErr)
    (h : (applyRepo g force cwd t rd repo).2 = .error e) :
    (∃ msg, e = .copyFailed msg) ∨ e = .hookRaised := by
  cases hs1 : (copy_dirs (repo.modules.getD []) (fmt2 g "modules") t.modules force).2 with
  | error e1 =>
    simp [applyRepo, hs1] at h
    exact Or.inl ⟨e1, h.symm⟩
  | ok files1 =>
    cases hs2 : (copy_dirs (repo.thirdparty.getD []) (fmt2 g "thirdparty") t.thirdparty force).2 with
    | error e2 =>
      simp [applyRepo, hs1, hs2] at h
      exact Or.inl ⟨e2, h.symm⟩
    | ok files2 =>
      cases hh : repo.helper with
      | false => simp [applyRepo, hs1, hs2, hh] at h
      | true =>
        cases hex : execute_helper_script (fmt2 rd "helper_script.py") cwd with
        | ok => simp [applyRepo, hs1, hs2, hh, hex] at h
        | raised =>
          simp [applyRepo, hs1, hs2, hh, hex] at h
          exact Or.inr h.symm

/-- The per-module loop only ever fails with a copy error or the hook
exception. -/
theorem applyModules_err_shape (g : String) (force cwd : Bool) :
    ∀ (repos : List (String × Repo)) (t : TargetTree) (e : ApplyErr),
      (applyModules g force cwd t repos).2 = .error e →
      (∃ msg, e = .copyFailed msg) ∨ e = .hookRaised
  | [], t, e, h => by simp [applyModules] at h
  | (name, repo) :: rest, t, e, h => by
    cases hr : (applyRepo g force cwd t (fmt2 g (fmt2 "temp" name)) repo).2 with
    | error e1 =>
      simp [applyModules, hr] at h
      exact h ▸ applyRepo_err_shape g force cwd t _ repo e1 hr
    | ok files1 =>
      cases hrec : applyModules g force cwd
          (applyRepo g force cwd t (fmt2 g (fmt2 "temp" name)) repo).1 rest with
      | mk t2 res =>
        cases res with
        | error e2 =>
          simp [applyModules, hr, hrec] at h
          exact h ▸ applyModules_err_shape g force cwd rest _ e2 (by rw [hrec])
        | ok files2 =>
          simp [applyModules, hr, hrec] at h

/-- Once the preconditions hold and mkdir works, apply always proceeds on a
fresh empty workspace (a stale one is deleted first) and dispatches on the
clone loop. -/
theorem apply_unfold_clone (env : Env) (args : Args) (w : World) (content : String)
    (hm : w.manifestContent = some content) (hg : w.godotExists = true)
    (hgit : w.gitAvailable = true) (hmk : env.mkdirWorks = true) :
    apply env args w =
      match cloneAll env {w with temp := some []} (pyLines content) with
      | (w3, some line) => (w3, some (.cloneFailed line))
      | (w3, none) =>
        let g := get_godot_dir args w3
        let r := applyModules g args.force w3.cwdHasPathFile w3.tree (w3.temp.getD [])
        match r.2 with
        | .error e => ({w3 with tree := r.1}, some e)
        | .ok files =>
          ({w3 with tree := r.1, temp := none, log := some (String.mk (encodeLog files))}, none) := by
  cases ht : w.temp with
  | none => simp [apply, hm, hg, hgit, hmk, ht]
  | some entries => simp [apply, hm, hg, hgit, hmk, ht]

/-- C3: git_clone reports failure (by returning False, not by raising)
exactly when the workspace directory is missing, and leaves the world
untouched in that case; and whenever apply aborts because a clone failed,
the target tree has not been modified and no log has been written — the
clone loop precedes all module processing. -/
theorem clone_failure_semantics :
    (∀ (env : Env) (w : World) (url br : String),
      ((git_clone env w url br).2 = false ↔ w.temp = none) ∧
      ((git_clone env w url br).2 = false → (git_clone env w url br).1 = w)) ∧
    (∀ (env : Env) (args : Args) (w w1 : World) (l : String),
      apply env args w = (w1, some (.cloneFailed l)) →
      w1.tree = w.tree ∧ w1.log = w.log) := by
  constructor
  · intro env w url br
    cases ht : w.temp with
    | none => simp [git_clone, ht]
    | some entries =>
      have htrue : (git_clone env w url br).2 = true := by
        cases hf : env.fetch url br with
        | created name repo =>
          by_cases hc : (entries.map Prod.fst).contains name <;> simp at hc <;>
            simp [git_clone, ht, hf, hc]
        | noEffect => simp [git_clone, ht, hf]
        | workspaceGone => simp [git_clone, ht, hf]
      constructor
      · constructor
        · intro h; rw [htrue] at h; cases h
        · intro h; cases h
      · intro h; rw [htrue] at h; cases h
  · intro env args w w1 l h
    cases hm : w.manifestContent with
    | none => simp [apply, hm] at h
    | some content =>
      cases hg : w.godotExists with
      | false => simp [apply, hm, hg] at h
      | true =>
        cases hgit : w.gitAvailable with
        | false => simp [apply, hm, hg, hgit] at h
        | true =>
          cases hmk : env.mkdirWorks with
          | false =>
            cases ht : w.temp with
            | none => simp [apply, hm, hg, hgit, hmk, ht] at h
            | some entries => simp [apply, hm, hg, hgit, hmk, ht] at h
          | true =>
            rw [apply_unfold_clone env args w content hm hg hgit hmk] at h
            cases hc : cloneAll env {w with temp := some []} (pyLines content) with
            | mk w3 res =>
              have hpres := cloneAll_preserves env (pyLines content) {w with temp := some []}
              rw [hc] at hpres h
              cases res with
              | some line =>
                simp at h
                rw [← h.1]
                simpa using hpres
              | none =>
                simp only at h
                cases hr : (applyModules (get_godot_dir args w3) args.force w3.cwdHasPathFile
                    w3.tree (w3.temp.getD [])).2 with
                | error e =>
                  rw [hr] at h
                  simp at h
                  rcases applyModules_err_shape _ _ _ _ _ e hr with ⟨msg, hmsg⟩ | hmsg <;>
                    { rw [hmsg] at h; simp at h }
                | ok files =>
                  rw [hr] at h
                  simp at h

/-- C3 witness: a workspace-gone environment makes the second clone fail;
apply aborts with that line, leaving the tree and log of the starting world
(which held a stale workspace) untouched; and a direct clone against a
missing workspace returns failure without changing anything. -/
theorem clone_failure_semantics_witness :
    (git_clone ⟨fun u _ => if u = "a" then .workspaceGone
        else .created "r" ⟨none, none, none, false⟩, true⟩
      ⟨some "a\nb", true, true, none, ⟨[], [], []⟩, none, true, "G"⟩ "u" "x").2 = false ∧
    (git_clone ⟨fun u _ => if u = "a" then .workspaceGone
        else .created "r" ⟨none, none, none, false⟩, true⟩
      ⟨some "a\nb", true, true, none, ⟨[], [], []⟩, none, true, "G"⟩ "u" "x").1 =
      ⟨some "a\nb", true, true, none, ⟨[], [], []⟩, none, true, "G"⟩ ∧
    (⟨some "a\nb", true, true, none, ⟨[], [], []⟩, none, true, "G"⟩ : World).tree =
      (⟨some "a\nb", true, true, some [("z", ⟨none, none, none, false⟩)],
        ⟨[], [], []⟩, none, true, "G"⟩ : World).tree ∧
    (⟨some "a\nb", true, true, none, ⟨[], [], []⟩, none, true, "G"⟩ : World).log =
      (⟨some "a\nb", true, true, some [("z", ⟨none, none, none, false⟩)],
        ⟨[], [], []⟩, none, true, "G"⟩ : World).log := by
  refine ⟨(clone_failure_semantics.1 _ _ "u" "x").1.mpr rfl,
          (clone_failure_semantics.1 _ _ "u" "x").2 ?_, ?_, ?_⟩
  · rfl
  all_goals
    have h := clone_failure_semantics.2
      ⟨fun u _ => if u = "a" then .workspaceGone else .created "r" ⟨none, none, none, false⟩, true⟩
      ⟨"./", "m", false⟩
      ⟨some "a\nb", true, true, some [("z", ⟨none, none, none, false⟩)], ⟨[], [], []⟩, none, true, "G"⟩
      ⟨some "a\nb", true, true, none, ⟨[], [], []⟩, none, true, "G"⟩ "b" rfl
  · exact h.1
  · exact h.2

/-! ## Path decoding lemmas -/

theorem dropPre_refl_append : ∀ (pre rest : List Char), dropPre pre (pre ++ rest) = some rest
  | [], rest => rfl
  | a :: as, rest => by simp [dropPre, dropPre_refl_append as rest]

theorem dropPre_cancel : ∀ (x y z : List Char), dropPre (x ++ y) (x ++ z) = dropPre y z
  | [], y, z => rfl
  | a :: as, y, z => by simp [dropPre, dropPre_cancel as y z]

theorem dropPre_nil {l : List Char} (h : l ≠ []) : dropPre l [] = none := by
  cases l with
  | nil => exact absurd rfl h
  | cons a as => rfl

/-- The data of a formatted section prefix, split at the godot directory. -/
theorem section_prefix_data (g s : String) :
    (fmt2 g s ++ "/").data = (g.data ++ ['/']) ++ (s.data ++ ['/']) := by
  simp [fmt2, data_append]

/-- A logged destination path under a section prefix, at the data level. -/
theorem section_path_data (g s n : String) :
    (fmt2 (fmt2 g s) n).data = (fmt2 g s ++ "/").data ++ n.data := rfl

/-- The modules/ prefix never matches a thirdparty/ path. -/
theorem modules_prefix_mismatch (g n : String) :
    dropPre ((fmt2 g "modules" ++ "/").data) ((fmt2 (fmt2 g "thirdparty") n).data) = none := by
  rw [section_path_data, section_prefix_data, section_prefix_data]
  simp only [List.append_assoc]
  rw [dropPre_cancel, dropPre_cancel]
  have hm : ("modules" : String).data ++ ['/'] = 'm' :: ("odules/" : String).data := rfl
  have ht : ("thirdparty" : String).data ++ (['/'] ++ n.data) =
      't' :: (("hirdparty/" : String).data ++ n.data) := rfl
  rw [hm, ht]
  simp [dropPre]

/-- Effect of clean's rm on a logged modules/ path. -/
theorem rmLogged_modules_path (g n : String) (t : TargetTree) :
    rmLogged g t (fmt2 (fmt2 g "modules") n) =
      if isDirAt t.modules n then {t with modules := eraseEntry t.modules n} else t := by
  have hdata : (fmt2 (fmt2 g "modules") n).data = (fmt2 g "modules" ++ "/").data ++ n.data := rfl
  rw [rmLogged, hdata, dropPre_refl_append]

/-- Effect of clean's rm on a logged thirdparty/ path. -/
theorem rmLogged_third_path (g n : String) (t : TargetTree) :
    rmLogged g t (fmt2 (fmt2 g "thirdparty") n) =
      if isDirAt t.thirdparty n then {t with thirdparty := eraseEntry t.thirdparty n} else t := by
  have hdata : (fmt2 (fmt2 g "thirdparty") n).data =
      (fmt2 g "thirdparty" ++ "/").data ++ n.data := rfl
  rw [rmLogged, modules_prefix_mismatch, hdata, dropPre_refl_append]

/-- Clean's rm on the empty line that trails the decoded log. -/
theorem rmLogged_empty (g : String) (t : TargetTree) : rmLogged g t "" = t := by
  have h1 : ((fmt2 g "modules" ++ "/") : String).data ≠ [] := by
    simp [data_append]
  have h2 : ((fmt2 g "thirdparty" ++ "/") : String).data ≠ [] := by
    simp [data_append]
  rw [rmLogged]
  have he : ("" : String).data = [] := rfl
  rw [he, dropPre_nil h1, dropPre_nil h2]

/-! ## Log round-trip lemmas -/

theorem dropWhile_no_match {p : Char → Bool} :
    ∀ {l : List Char}, (∀ c ∈ l, p c = false) → l.dropWhile p = l
  | [], _ => rfl
  | c :: cs, h => by
    have hc : p c = false := h c (by simp)
    simp [List.dropWhile_cons, hc]

theorem pyStrip_clean {l : List Char} (h : ∀ c ∈ l, c.isWhitespace = false) :
    pyStrip l = l := by
  unfold pyStrip
  rw [dropWhile_no_match h]
  rw [dropWhile_no_match (fun c hc => h c (List.mem_reverse.mp hc))]
  exact List.reverse_reverse l

theorem splitNl_sep {l : List Char} (rest : List Char) (h : '\n' ∉ l) :
    splitNl (l ++ '\n' :: rest) = l :: splitNl rest := by
  induction l with
  | nil => simp [splitNl]
  | cons c cs ih =>
    have hc : ¬ c = '\n' := fun hx => h (hx ▸ List.mem_cons_self c cs)
    have ih2 := ih (fun hx => h (List.mem_cons_of_mem c hx))
    simp only [List.cons_append, splitNl, hc, if_false]
    rw [List.append_eq, ih2]

theorem cleanStr_no_newline {s : String} (h : cleanStr s) : '\n' ∉ s.data := by
  intro hmem
  have := h '\n' hmem
  simp [Char.isWhitespace] at this

/-- Reading the log back (readlines + strip) recovers exactly the written
paths, plus the empty trailing piece after the final newline. -/
theorem decode_encode (fs : List String) (h : ∀ p ∈ fs, cleanStr p) :
    decodeLog (String.mk (encodeLog fs)) = fs ++ [""] := by
  induction fs with
  | nil => rfl
  | cons p rest ih =>
    have hp : cleanStr p := h p (by simp)
    have hnl : '\n' ∉ p.data := cleanStr_no_newline hp
    have hrest := ih (fun q hq => h q (by simp [hq]))
    show (splitNl (String.mk (encodeLog (p :: rest))).data).map
        (fun l => String.mk (pyStrip l)) = p :: (rest ++ [""])
    have hdata : (String.mk (encodeLog (p :: rest))).data = p.data ++ '\n' :: encodeLog rest := rfl
    rw [hdata, splitNl_sep _ hnl]
    simp only [List.map_cons]
    rw [pyStrip_clean hp]
    have : (splitNl (encodeLog rest)).map (fun l => String.mk (pyStrip l)) = rest ++ [""] := hrest
    rw [this]

/-! ## Whitespace-free path facts -/

theorem cleanStr_append {a b : String} (ha : cleanStr a) (hb : cleanStr b) :
    cleanStr (a ++ b) := by
  intro c hc
  rw [data_append] at hc
  rcases List.mem_append.mp hc with h | h
  · exact ha c h
  · exact hb c h

theorem cleanStr_slash : cleanStr "/" := by unfold cleanStr; decide

theorem cleanStr_modules : cleanStr "modules" := by unfold cleanStr; decide

theorem cleanStr_thirdparty : cleanStr "thirdparty" := by unfold cleanStr; decide

theorem cleanStr_fmt2 {a b : String} (ha : cleanStr a) (hb : cleanStr b) :
    cleanStr (fmt2 a b) :=
  cleanStr_append (cleanStr_append ha cleanStr_slash) hb

/-- Every path apply logs is whitespace-free when the script directory and
all copied entry names are. -/
theorem pathsOfRepos_clean (g : String) (repos : List (String × Repo))
    (hg : cleanStr g) (hr : ∀ q ∈ repos, repoClean q.2) :
    ∀ p ∈ pathsOfRepos g repos, cleanStr p := by
  intro p hp
  unfold pathsOfRepos at hp
  rw [List.mem_flatten] at hp
  obtain ⟨seg, hseg, hpseg⟩ := hp
  rw [List.mem_map] at hseg
  obtain ⟨r, hrmem, hre⟩ := hseg
  subst hre
  have hclean := hr r hrmem
  rcases List.mem_append.mp hpseg with hm | hm
  · rw [List.mem_map] at hm
    obtain ⟨q, hq, hqe⟩ := hm
    subst hqe
    exact cleanStr_fmt2 (cleanStr_fmt2 hg cleanStr_modules) (hclean.1 q hq)
  · rw [List.mem_map] at hm
    obtain ⟨q, hq, hqe⟩ := hm
    subst hqe
    exact cleanStr_fmt2 (cleanStr_fmt2 hg cleanStr_thirdparty) (hclean.2 q hq)

/-! ## The deletion phase of clean -/

theorem namesOf_append (a b : Listing) : namesOf (a ++ b) = namesOf a ++ namesOf b := by
  simp [namesOf]

theorem eraseEntry_cons_self (n : String) (e : Entry) (l : Listing) :
    eraseEntry ((n, e) :: l) n = eraseEntry l n := by
  show ((n, e) :: l).filter (fun p => p.1 != n) = l.filter (fun p => p.1 != n)
  rw [List.filter_cons]
  simp

theorem lookupEntry_eq_none_of_append_right {l1 l2 : Listing} {n : String}
    (h : lookupEntry (l1 ++ l2) n = none) : lookupEntry l2 n = none := by
  have h1 : lookupEntry l1 n = none := lookupEntry_eq_none_of_append h
  rw [lookupEntry_append_right _ h1] at h
  exact h

/-- Folding clean's rm over the logged modules/ paths of one repository
removes exactly that repository's block from the modules listing. -/
theorem del_fold_modules (g : String) :
    ∀ (A Lm R Lt : Listing) (pt : List String),
      (∀ q ∈ A, q.2.isDir = true) →
      (∀ n ∈ namesOf A, lookupEntry Lm n = none) →
      (∀ n ∈ namesOf A, lookupEntry R n = none) →
      (namesOf A).Nodup →
      List.foldl (rmLogged g) ⟨Lm ++ (A ++ R), Lt, pt⟩
        (A.map (fun q => fmt2 (fmt2 g "modules") q.1)) = ⟨Lm ++ R, Lt, pt⟩
  | [], Lm, R, Lt, pt, _, _, _, _ => by simp
  | (n, e) :: A2, Lm, R, Lt, pt, hdir, hLm, hR, hnd => by
    have hLmn : lookupEntry Lm n = none := hLm n (by simp [namesOf])
    have hRn : lookupEntry R n = none := hR n (by simp [namesOf])
    have hnA2 : n ∉ namesOf A2 := by
      rw [namesOf, List.map_cons, List.nodup_cons] at hnd
      exact hnd.1
    have hndA2 : (namesOf A2).Nodup := by
      rw [namesOf, List.map_cons, List.nodup_cons] at hnd
      exact hnd.2
    have he : e.isDir = true := hdir (n, e) (by simp)
    have hlook : lookupEntry (Lm ++ ((n, e) :: A2 ++ R)) n = some e := by
      rw [lookupEntry_append_right _ hLmn]
      simp [lookupEntry]
    have hdirAt : isDirAt (Lm ++ ((n, e) :: A2 ++ R)) n = true := by
      rw [isDirAt, hlook]
      cases e with
      | file c => simp [Entry.isDir] at he
      | dir d => rfl
    have herase : eraseEntry (Lm ++ ((n, e) :: A2 ++ R)) n = Lm ++ (A2 ++ R) := by
      rw [List.cons_append, eraseEntry_append, eraseEntry_of_fresh hLmn, eraseEntry_cons_self,
        eraseEntry_append, eraseEntry_of_fresh hRn,
        eraseEntry_of_fresh (lookupEntry_none_iff.mpr hnA2)]
    rw [List.map_cons, List.foldl_cons, rmLogged_modules_path]
    simp only [hdirAt, if_true]
    rw [herase]
    exact del_fold_modules g A2 Lm R Lt pt (fun q hq => hdir q (by simp [hq]))
      (fun m hm => hLm m (by simp [namesOf] at hm ⊢; exact Or.inr hm))
      (fun m hm => hR m (by simp [namesOf] at hm ⊢; exact Or.inr hm)) hndA2

/-- Folding clean's rm over the logged thirdparty/ paths of one repository
removes exactly that repository's block from the thirdparty listing. -/
theorem del_fold_third (g : String) :
    ∀ (A Lt R Lm : Listing) (pt : List String),
      (∀ q ∈ A, q.2.isDir = true) →
      (∀ n ∈ namesOf A, lookupEntry Lt n = none) →
      (∀ n ∈ namesOf A, lookupEntry R n = none) →
      (namesOf A).Nodup →
      List.foldl (rmLogged g) ⟨Lm, Lt ++ (A ++ R), pt⟩
        (A.map (fun q => fmt2 (fmt2 g "thirdparty") q.1)) = ⟨Lm, Lt ++ R, pt⟩
  | [], Lt, R, Lm, pt, _, _, _, _ => by simp
  | (n, e) :: A2, Lt, R, Lm, pt, hdir, hLt, hR, hnd => by
    have hLtn : lookupEntry Lt n = none := hLt n (by simp [namesOf])
    have hRn : lookupEntry R n = none := hR n (by simp [namesOf])
    have hnA2 : n ∉ namesOf A2 := by
      rw [namesOf, List.map_cons, List.nodup_cons] at hnd
      exact hnd.1
    have hndA2 : (namesOf A2).Nodup := by
      rw [namesOf, List.map_cons, List.nodup_cons] at hnd
      exact hnd.2
    have he : e.isDir = true := hdir (n, e) (by simp)
    have hlook : lookupEntry (Lt ++ ((n, e) :: A2 ++ R)) n = some e := by
      rw [lookupEntry_append_right _ hLtn]
      simp [lookupEntry]
    have hdirAt : isDirAt (Lt ++ ((n, e) :: A2 ++ R)) n = true := by
      rw [isDirAt, hlook]
      cases e with
      | file c => simp [Entry.isDir] at he
      | dir d => rfl
    have herase : eraseEntry (Lt ++ ((n, e) :: A2 ++ R)) n = Lt ++ (A2 ++ R) := by
      rw [List.cons_append, eraseEntry_append, eraseEntry_of_fresh hLtn, eraseEntry_cons_self,
        eraseEntry_append, eraseEntry_of_fresh hRn,
        eraseEntry_of_fresh (lookupEntry_none_iff.mpr hnA2)]
    rw [List.map_cons, List.foldl_cons, rmLogged_third_path]
    simp only [hdirAt, if_true]
    rw [herase]
    exact del_fold_third g A2 Lt R Lm pt (fun q hq => hdir q (by simp [hq]))
      (fun m hm => hLt m (by simp [namesOf] at hm ⊢; exact Or.inr hm))
      (fun m hm => hR m (by simp [namesOf] at hm ⊢; exact Or.inr hm)) hndA2

/-- Folding clean's rm over every logged path deletes exactly the content
the apply run added, leaving the original listings. -/
theorem del_fold (g : String) :
    ∀ (repos : List (String × Repo)) (Lm Lt : Listing) (pt : List String),
      (∀ q ∈ modsOf repos, q.2.isDir = true) →
      (∀ n ∈ namesOf (modsOf repos), lookupEntry Lm n = none) →
      (namesOf (modsOf repos)).Nodup →
      (∀ q ∈ thirdsOf repos, q.2.isDir = true) →
      (∀ n ∈ namesOf (thirdsOf repos), lookupEntry Lt n = none) →
      (namesOf (thirdsOf repos)).Nodup →
      List.foldl (rmLogged g) ⟨Lm ++ modsOf repos, Lt ++ thirdsOf repos, pt⟩
        (pathsOfRepos g repos) = ⟨Lm, Lt, pt⟩
  | [], Lm, Lt, pt, _, _, _, _, _, _ => by
    simp [modsOf, thirdsOf, pathsOfRepos]
  | (name, repo) :: rest, Lm, Lt, pt, h1, h2, h3, h4, h5, h6 => by
    have hms : modsOf ((name, repo) :: rest) = repo.modules.getD [] ++ modsOf rest := by
      simp [modsOf]
    have hts : thirdsOf ((name, repo) :: rest) = repo.thirdparty.getD [] ++ thirdsOf rest := by
      simp [thirdsOf]
    have hps : pathsOfRepos g ((name, repo) :: rest) =
        ((repo.modules.getD []).map (fun q => fmt2 (fmt2 g "modules") q.1) ++
         (repo.thirdparty.getD []).map (fun q => fmt2 (fmt2 g "thirdparty") q.1)) ++
        pathsOfRepos g rest := by
      simp [pathsOfRepos]
    rw [hms] at h1 h2 h3
    rw [hts] at h4 h5 h6
    rw [namesOf_append] at h2 h3 h5 h6
    rw [List.nodup_append] at h3 h6
    have hdisjM := h3.2.2
    have hdisjT := h6.2.2
    have hfreshMR : ∀ n ∈ namesOf (repo.modules.getD []), lookupEntry (modsOf rest) n = none := by
      intro n hn
      exact lookupEntry_none_iff.mpr (hdisjM hn)
    have hfreshTR : ∀ n ∈ namesOf (repo.thirdparty.getD []),
        lookupEntry (thirdsOf rest) n = none := by
      intro n hn
      exact lookupEntry_none_iff.mpr (hdisjT hn)
    rw [hps, hms, hts, List.foldl_append, List.foldl_append]
    have step1 := del_fold_modules g (repo.modules.getD []) Lm (modsOf rest)
      (Lt ++ (repo.thirdparty.getD [] ++ thirdsOf rest)) pt
      (fun q hq => h1 q (List.mem_append.mpr (Or.inl hq)))
      (fun n hn => h2 n (List.mem_append.mpr (Or.inl hn)))
      hfreshMR h3.1
    have step2 := del_fold_third g (repo.thirdparty.getD []) Lt (thirdsOf rest)
      (Lm ++ modsOf rest) pt
      (fun q hq => h4 q (List.mem_append.mpr (Or.inl hq)))
      (fun n hn => h5 n (List.mem_append.mpr (Or.inl hn)))
      hfreshTR h6.1
    rw [step1, step2]
    exact del_fold g rest Lm Lt pt
      (fun q hq => h1 q (List.mem_append.mpr (Or.inr hq)))
      (fun n hn => h2 n (List.mem_append.mpr (Or.inr hn)))
      h3.2.1
      (fun q hq => h4 q (List.mem_append.mpr (Or.inr hq)))
      (fun n hn => h5 n (List.mem_append.mpr (Or.inr hn)))
      h6.2.1

/-! ## Characterisation of a successful force-free apply -/

/-- What one repository's per-module phase does on success with
force=false: the tree gains exactly the repository's modules/ and
thirdparty/ blocks (appended), whose entries are fresh distinct
directories, and the returned paths are the formatted destinations. -/
theorem applyRepo_ok (g : String) (cwd : Bool) (t tr : TargetTree) (rd : String)
    (repo : Repo) (f1 : List String)
    (h : applyRepo g false cwd t rd repo = (tr, .ok f1)) :
    tr.modules = t.modules ++ repo.modules.getD [] ∧
    tr.thirdparty = t.thirdparty ++ repo.thirdparty.getD [] ∧
    (∀ q ∈ repo.modules.getD [], q.2.isDir = true) ∧
    (∀ n ∈ namesOf (repo.modules.getD []), lookupEntry t.modules n = none) ∧
    (namesOf (repo.modules.getD [])).Nodup ∧
    (∀ q ∈ repo.thirdparty.getD [], q.2.isDir = true) ∧
    (∀ n ∈ namesOf (repo.thirdparty.getD []), lookupEntry t.thirdparty n = none) ∧
    (namesOf (repo.thirdparty.getD [])).Nodup ∧
    f1 = (repo.modules.getD []).map (fun q => fmt2 (fmt2 g "modules") q.1) ++
      (repo.thirdparty.getD []).map (fun q => fmt2 (fmt2 g "thirdparty") q.1) := by
  cases hs1 : copy_dirs (repo.modules.getD []) (fmt2 g "modules") t.modules false with
  | mk m1 r1 =>
    cases r1 with
    | error e1 => simp [applyRepo, hs1] at h
    | ok files1 =>
      cases hs2 : copy_dirs (repo.thirdparty.getD []) (fmt2 g "thirdparty") t.thirdparty false with
      | mk m2 r2 =>
        cases r2 with
        | error e2 => simp [applyRepo, hs1, hs2] at h
        | ok files2 =>
          obtain ⟨-, hfreshM, hndM, hmeq, hf1⟩ :=
            copy_dirs_false_ok_inv _ _ _ _ _ hs1
          obtain ⟨-, hfreshT, hndT, hteq, hf2⟩ :=
            copy_dirs_false_ok_inv _ _ _ _ _ hs2
          obtain ⟨hdirM, -, -, -, -⟩ := copy_dirs_false_ok_inv _ _ _ _ _ hs1
          obtain ⟨hdirT, -, -, -, -⟩ := copy_dirs_false_ok_inv _ _ _ _ _ hs2
          have hmain : tr.modules = m1 ∧ tr.thirdparty = m2 ∧ f1 = files1 ++ files2 := by
            cases hpat : repo.patches with
            | none =>
              cases hh : repo.helper with
              | false =>
                simp [applyRepo, hs1, hs2, hpat, hh] at h
                exact ⟨by rw [← h.1], by rw [← h.1], h.2.symm⟩
              | true =>
                cases hex : execute_helper_script (fmt2 rd "helper_script.py") cwd with
                | ok =>
                  simp [applyRepo, hs1, hs2, hpat, hh, hex] at h
                  exact ⟨by rw [← h.1], by rw [← h.1], h.2.symm⟩
                | raised => simp [applyRepo, hs1, hs2, hpat, hh, hex] at h
            | some ps =>
              cases hh : repo.helper with
              | false =>
                simp [applyRepo, hs1, hs2, hpat, hh, apply_patches] at h
                exact ⟨by rw [← h.1], by rw [← h.1], h.2.symm⟩
              | true =>
                cases hex : execute_helper_script (fmt2 rd "helper_script.py") cwd with
                | ok =>
                  simp [applyRepo, hs1, hs2, hpat, hh, hex, apply_patches] at h
                  exact ⟨by rw [← h.1], by rw [← h.1], h.2.symm⟩
                | raised => simp [applyRepo, hs1, hs2, hpat, hh, hex] at h
          refine ⟨hmain.1.trans hmeq, hmain.2.1.trans hteq, hdirM, hfreshM, hndM,
            hdirT, hfreshT, hndT, ?_⟩
          rw [hmain.2.2, hf1, hf2]

/-- What the whole per-module loop does on success with force=false. -/
theorem applyModules_ok (g : String) (cwd : Bool) :
    ∀ (repos : List (String × Repo)) (t t1 : TargetTree) (fs : List String),
      applyModules g false cwd t repos = (t1, .ok fs) →
      t1.modules = t.modules ++ modsOf repos ∧
      t1.thirdparty = t.thirdparty ++ thirdsOf repos ∧
      (∀ q ∈ modsOf repos, q.2.isDir = true) ∧
      (∀ n ∈ namesOf (modsOf repos), lookupEntry t.modules n = none) ∧
      (namesOf (modsOf repos)).Nodup ∧
      (∀ q ∈ thirdsOf repos, q.2.isDir = true) ∧
      (∀ n ∈ namesOf (thirdsOf repos), lookupEntry t.thirdparty n = none) ∧
      (namesOf (thirdsOf repos)).Nodup ∧
      fs = pathsOfRepos g repos
  | [], t, t1, fs, h => by
    simp [applyModules] at h
    obtain ⟨h1, h2⟩ := h
    subst h1
    subst h2
    simp [modsOf, thirdsOf, pathsOfRepos, namesOf]
  | (name, repo) :: rest, t, t1, fs, h => by
    cases hr : applyRepo g false cwd t (fmt2 g (fmt2 "temp" name)) repo with
    | mk tr res1 =>
      cases res1 with
      | error e1 => simp [applyModules, hr] at h
      | ok f1 =>
        cases hrec : applyModules g false cwd tr rest with
        | mk t2 res2 =>
          cases res2 with
          | error e2 => simp [applyModules, hr, hrec] at h
          | ok f2 =>
            simp [applyModules, hr, hrec] at h
            obtain ⟨hrm, hrt, hdirM, hfreshM, hndM, hdirT, hfreshT, hndT, hf1⟩ :=
              applyRepo_ok g cwd t tr _ repo f1 hr
            obtain ⟨irm, irt, idirM, ifreshM, indM, idirT, ifreshT, indT, if2⟩ :=
              applyModules_ok g cwd rest tr t2 f2 hrec
            have hms : modsOf ((name, repo) :: rest) = repo.modules.getD [] ++ modsOf rest := by
              simp [modsOf]
            have hts : thirdsOf ((name, repo) :: rest) =
                repo.thirdparty.getD [] ++ thirdsOf rest := by
              simp [thirdsOf]
            have hps : pathsOfRepos g ((name, repo) :: rest) =
                ((repo.modules.getD []).map (fun q => fmt2 (fmt2 g "modules") q.1) ++
                 (repo.thirdparty.getD []).map (fun q => fmt2 (fmt2 g "thirdparty") q.1)) ++
                pathsOfRepos g rest := by
              simp [pathsOfRepos]
            have hfreshM2 : ∀ n ∈ namesOf (modsOf rest), lookupEntry t.modules n = none := by
              intro n hn
              have := ifreshM n hn
              rw [hrm] at this
              exact lookupEntry_eq_none_of_append this
            have hfreshT2 : ∀ n ∈ namesOf (thirdsOf rest), lookupEntry t.thirdparty n = none := by
              intro n hn
              have := ifreshT n hn
              rw [hrt] at this
              exact lookupEntry_eq_none_of_append this
            have hdisjM : (namesOf (repo.modules.getD [])).Disjoint (namesOf (modsOf rest)) := by
              intro x hx hx2
              have := ifreshM x hx2
              rw [hrm] at this
              have h2 := lookupEntry_eq_none_of_append_right this
              exact lookupEntry_none_iff.mp h2 hx
            have hdisjT : (namesOf (repo.thirdparty.getD [])).Disjoint
                (namesOf (thirdsOf rest)) := by
              intro x hx hx2
              have := ifreshT x hx2
              rw [hrt] at this
              have h2 := lookupEntry_eq_none_of_append_right this
              exact lookupEntry_none_iff.mp h2 hx
            refine ⟨?_, ?_, ?_, ?_, ?_, ?_, ?_, ?_, ?_⟩
            · rw [← h.1, irm, hrm, hms, List.append_assoc]
            · rw [← h.1, irt, hrt, hts, List.append_assoc]
            · rw [hms]
              intro q hq
              rcases List.mem_append.mp hq with hq | hq
              · exact hdirM q hq
              · exact idirM q hq
            · rw [hms, namesOf_append]
              intro n hn
              rcases List.mem_append.mp hn with hn | hn
              · exact hfreshM n hn
              · exact hfreshM2 n hn
            · rw [hms, namesOf_append, List.nodup_append]
              exact ⟨hndM, indM, hdisjM⟩
            · rw [hts]
              intro q hq
              rcases List.mem_append.mp hq with hq | hq
              · exact hdirT q hq
              · exact idirT q hq
            · rw [hts, namesOf_append]
              intro n hn
              rcases List.mem_append.mp hn with hn | hn
              · exact hfreshT n hn
              · exact hfreshT2 n hn
            · rw [hts, namesOf_append, List.nodup_append]
              exact ⟨hndT, indT, hdisjT⟩
            · rw [← h.2, hf1, if2, hps]

/-! ## Clone-phase bookkeeping for the round trip -/

theorem git_clone_scriptDir (env : Env) (w : World) (url br : String) :
    (git_clone env w url br).1.scriptDir = w.scriptDir := by
  cases ht : w.temp with
  | none => simp [git_clone, ht]
  | some entries =>
    cases hf : env.fetch url br with
    | created name repo =>
      by_cases hc : (entries.map Prod.fst).contains name <;> simp at hc <;>
        simp [git_clone, ht, hf, hc]
    | noEffect => simp [git_clone, ht, hf]
    | workspaceGone => simp [git_clone, ht, hf]

theorem cloneAll_scriptDir (env : Env) :
    ∀ (lines : List String) (w : World), (cloneAll env w lines).1.scriptDir = w.scriptDir
  | [], w => by simp [cloneAll]
  | line :: rest, w => by
    cases hp : parseLine line with
    | none => simpa [cloneAll, hp] using cloneAll_scriptDir env rest w
    | some ms =>
      cases hg : git_clone env w ms.repository ms.branch with
      | mk w2 ok =>
        have hpres := git_clone_scriptDir env w ms.repository ms.branch
        rw [hg] at hpres
        cases ok with
        | true =>
          have hrec := cloneAll_scriptDir env rest w2
          simp [cloneAll, hp, hg]
          exact hrec.trans hpres
        | false => simpa [cloneAll, hp, hg] using hpres

theorem git_clone_temp_clean (env : Env) (w : World) (url br : String)
    (hrc : ∀ u b n r, env.fetch u b = CloneOutcome.created n r → repoClean r)
    (hw : ∀ q ∈ w.temp.getD [], repoClean q.2) :
    ∀ q ∈ (git_clone env w url br).1.temp.getD [], repoClean q.2 := by
  intro q hq
  cases ht : w.temp with
  | none => simp [git_clone, ht] at hq
  | some entries =>
    cases hf : env.fetch url br with
    | created name repo =>
      by_cases hc : (entries.map Prod.fst).contains name
      · simp at hc
        simp [git_clone, ht, hf, hc] at hq
        exact hw q (by rw [ht]; simpa using hq)
      · simp at hc
        simp [git_clone, ht, hf, hc] at hq
        rcases hq with hq | hq
        · exact hw q (by rw [ht]; simpa using hq)
        · rw [hq]
          exact hrc url br name repo hf
    | noEffect =>
      simp [git_clone, ht, hf] at hq
      exact hw q (by rw [ht]; simpa using hq)
    | workspaceGone =>
      simp [git_clone, ht, hf] at hq

theorem cloneAll_temp_clean (env : Env)
    (hrc : ∀ u b n r, env.fetch u b = CloneOutcome.created n r → repoClean r) :
    ∀ (lines : List String) (w : World), (∀ q ∈ w.temp.getD [], repoClean q.2) →
      ∀ q ∈ (cloneAll env w lines).1.temp.getD [], repoClean q.2
  | [], w, hw => by simpa [cloneAll] using hw
  | line :: rest, w, hw => by
    cases hp : parseLine line with
    | none => simpa [cloneAll, hp] using cloneAll_temp_clean env hrc rest w hw
    | some ms =>
      cases hg : git_clone env w ms.repository ms.branch with
      | mk w2 ok =>
        have hstep := git_clone_temp_clean env w ms.repository ms.branch hrc hw
        rw [hg] at hstep
        cases ok with
        | true =>
          have hrec := cloneAll_temp_clean env hrc rest w2 hstep
          simpa [cloneAll, hp, hg] using hrec
        | false => simpa [cloneAll, hp, hg] using hstep

/-! ## C1: apply followed by clean -/

/-- C1 (amended): for a successful apply run *without* force-overwrite
(force=false; with force=true a pre-existing entry can be merged into and
then wholly deleted by clean, see the counterexample), followed by clean:
clean succeeds, deletes exactly the paths apply recorded in the
applied-paths log, deletes the log itself, and the target tree's modules/
and thirdparty/ listings are restored to their pre-apply content.
Whitespace-free names are required so that writing a path as a log line and
reading it back (readlines + strip) is faithful. -/
theorem apply_clean_roundtrip (env : Env) (args : Args) (w w1 : World)
    (hforce : args.force = false)
    (hg : cleanStr w.scriptDir)
    (hrc : ∀ u b n r, env.fetch u b = CloneOutcome.created n r → repoClean r)
    (happly : apply env args w = (w1, none)) :
    (clean args w1).2 = none ∧
    (clean args w1).1.tree.modules = w.tree.modules ∧
    (clean args w1).1.tree.thirdparty = w.tree.thirdparty ∧
    (clean args w1).1.log = none := by
  cases hm : w.manifestContent with
  | none => simp [apply, hm] at happly
  | some content =>
  cases hgod : w.godotExists with
  | false => simp [apply, hm, hgod] at happly
  | true =>
  cases hgit : w.gitAvailable with
  | false => simp [apply, hm, hgod, hgit] at happly
  | true =>
  cases hmk : env.mkdirWorks with
  | false =>
    cases ht : w.temp with
    | none => simp [apply, hm, hgod, hgit, hmk, ht] at happly
    | some es => simp [apply, hm, hgod, hgit, hmk, ht] at happly
  | true =>
  rw [apply_unfold_clone env args w content hm hgod hgit hmk] at happly
  cases hc : cloneAll env {w with temp := some []} (pyLines content) with
  | mk w3 cres =>
    rw [hc] at happly
    cases cres with
    | some line => simp at happly
    | none =>
      simp only at happly
      rw [hforce] at happly
      cases hr : (applyModules (get_godot_dir args w3) false w3.cwdHasPathFile
          w3.tree (w3.temp.getD [])).2 with
      | error e => rw [hr] at happly; simp at happly
      | ok files =>
        rw [hr] at happly
        simp at happly
        have hw1 : w1 = {w3 with
            tree := (applyModules (get_godot_dir args w3) false w3.cwdHasPathFile
              w3.tree (w3.temp.getD [])).1,
            temp := none,
            log := some (String.mk (encodeLog files))} := happly.symm
        subst hw1
        -- bookkeeping facts about w3
        have hscript : w3.scriptDir = w.scriptDir := by
          have := cloneAll_scriptDir env (pyLines content) {w with temp := some []}
          rw [hc] at this
          exact this
        have htree3 : w3.tree = w.tree := by
          have := (cloneAll_preserves env (pyLines content) {w with temp := some []}).1
          rw [hc] at this
          exact this
        have hrepos : ∀ q ∈ w3.temp.getD [], repoClean q.2 := by
          have := cloneAll_temp_clean env hrc (pyLines content) {w with temp := some []}
            (by simp)
          rw [hc] at this
          exact this
        -- the per-module phase, characterised
        have hfull : applyModules (get_godot_dir args w3) false w3.cwdHasPathFile
            w3.tree (w3.temp.getD []) =
            ((applyModules (get_godot_dir args w3) false w3.cwdHasPathFile
              w3.tree (w3.temp.getD [])).1, .ok files) := by
          rw [← hr]
        obtain ⟨hmod, hthird, hdirM, hfreshM, hndM, hdirT, hfreshT, hndT, hfs⟩ :=
          applyModules_ok (get_godot_dir args w3) w3.cwdHasPathFile (w3.temp.getD [])
            w3.tree _ files hfull
        have hgddef : get_godot_dir args w3 = w3.scriptDir := rfl
        have hpathsclean : ∀ p ∈ files, cleanStr p := by
          rw [hfs, hgddef]
          exact pathsOfRepos_clean w3.scriptDir (w3.temp.getD []) (hscript ▸ hg) hrepos
        -- evaluate clean
        have hdec : decodeLog (String.mk (encodeLog files)) = files ++ [""] :=
          decode_encode files hpathsclean
        simp only [clean, git_restore_dir, hdec]
        have hfold : List.foldl
            (rmLogged (get_godot_dir args
              ({w3 with
                tree := (applyModules (get_godot_dir args w3) false w3.cwdHasPathFile
                  w3.tree (w3.temp.getD [])).1,
                temp := none,
                log := some (String.mk (encodeLog files))} : World)))
            {(applyModules (get_godot_dir args w3) false w3.cwdHasPathFile
                w3.tree (w3.temp.getD [])).1 with patched := []}
            (files ++ [""]) =
            ⟨w.tree.modules, w.tree.thirdparty, []⟩ := by
          have hgd2 : get_godot_dir args
              ({w3 with
                tree := (applyModules (get_godot_dir args w3) false w3.cwdHasPathFile
                  w3.tree (w3.temp.getD [])).1,
                temp := none,
                log := some (String.mk (encodeLog files))} : World) = w3.scriptDir := rfl
          have hshape : ({(applyModules (get_godot_dir args w3) false w3.cwdHasPathFile
              w3.tree (w3.temp.getD [])).1 with patched := []} : TargetTree) =
              ⟨w.tree.modules ++ modsOf (w3.temp.getD []),
               w.tree.thirdparty ++ thirdsOf (w3.temp.getD []), []⟩ := by
            rw [show ({(applyModules (get_godot_dir args w3) false w3.cwdHasPathFile
                w3.tree (w3.temp.getD [])).1 with patched := []} : TargetTree) =
                ⟨(applyModules (get_godot_dir args w3) false w3.cwdHasPathFile
                  w3.tree (w3.temp.getD [])).1.modules,
                 (applyModules (get_godot_dir args w3) false w3.cwdHasPathFile
                  w3.tree (w3.temp.getD [])).1.thirdparty, []⟩ from rfl]
            rw [hmod, hthird, htree3]
          rw [hgd2, hshape, List.foldl_append, hfs, hgddef]
          rw [del_fold w3.scriptDir (w3.temp.getD []) w.tree.modules w.tree.thirdparty []
            hdirM (htree3 ▸ hfreshM) hndM hdirT (htree3 ▸ hfreshT) hndT]
          simp [rmLogged_empty]
        rw [hfold]
        simp

/-- C1 counterexample: with force=true, a pre-existing modules/modA is
merged into by apply and then wholly deleted by clean, so the claimed
restoration of the pre-apply content set fails: modA existed before the
run and is gone after apply-then-clean. -/
theorem apply_clean_roundtrip_force_true_cex :
    apply ⟨fun _ _ => .created "r"
        ⟨some [("modA", Entry.dir [("new", Entry.file "n")])], none, none, false⟩, true⟩
      ⟨"./", "m", true⟩
      ⟨some "u", true, true, none,
        ⟨[("modA", Entry.dir [("keep", Entry.file "k")])], [], []⟩, none, true, "G"⟩ =
      (⟨some "u", true, true, none,
        ⟨[("modA", Entry.dir [("keep", Entry.file "k"), ("new", Entry.file "n")])], [], []⟩,
        some (String.mk (encodeLog [fmt2 (fmt2 "G" "modules") "modA"])), true, "G"⟩, none) ∧
    clean ⟨"./", "m", true⟩
      ⟨some "u", true, true, none,
        ⟨[("modA", Entry.dir [("keep", Entry.file "k"), ("new", Entry.file "n")])], [], []⟩,
        some (String.mk (encodeLog [fmt2 (fmt2 "G" "modules") "modA"])), true, "G"⟩ =
      (⟨some "u", true, true, none, ⟨[], [], []⟩, none, true, "G"⟩, none) ∧
    ([] : Listing) ≠ [("modA", Entry.dir [("keep", Entry.file "k")])] := by
  refine ⟨rfl, rfl, by simp⟩

/-- C1 witness: a run with one cloned repository contributing one module
directory, applied without force and then cleaned; the target tree's
listings come back empty, as they started. -/
theorem apply_clean_roundtrip_witness :
    (clean ⟨"./", "m", false⟩
      ⟨some "u", true, true, none,
        ⟨[("modA", Entry.dir [("f", Entry.file "x")])], [], []⟩,
        some (String.mk (encodeLog [fmt2 (fmt2 "G" "modules") "modA"])), true, "G"⟩).2 = none ∧
    (clean ⟨"./", "m", false⟩
      ⟨some "u", true, true, none,
        ⟨[("modA", Entry.dir [("f", Entry.file "x")])], [], []⟩,
        some (String.mk (encodeLog [fmt2 (fmt2 "G" "modules") "modA"])), true, "G"⟩).1.tree.modules
      = [] ∧
    (clean ⟨"./", "m", false⟩
      ⟨some "u", true, true, none,
        ⟨[("modA", Entry.dir [("f", Entry.file "x")])], [], []⟩,
        some (String.mk (encodeLog [fmt2 (fmt2 "G" "modules") "modA"])), true,
        "G"⟩).1.tree.thirdparty = [] ∧
    (clean ⟨"./", "m", false⟩
      ⟨some "u", true, true, none,
        ⟨[("modA", Entry.dir [("f", Entry.file "x")])], [], []⟩,
        some (String.mk (encodeLog [fmt2 (fmt2 "G" "modules") "modA"])), true, "G"⟩).1.log
      = none := by
  have happly : apply
      ⟨fun _ _ => .created "r"
        ⟨some [("modA", Entry.dir [("f", Entry.file "x")])], none, none, false⟩, true⟩
      ⟨"./", "m", false⟩
      ⟨some "u", true, true, none, ⟨[], [], []⟩, none, true, "G"⟩ =
      (⟨some "u", true, true, none,
        ⟨[("modA", Entry.dir [("f", Entry.file "x")])], [], []⟩,
        some (String.mk (encodeLog [fmt2 (fmt2 "G" "modules") "modA"])), true, "G"⟩, none) := rfl
  have h := apply_clean_roundtrip
    ⟨fun _ _ => .created "r"
      ⟨some [("modA", Entry.dir [("f", Entry.file "x")])], none, none, false⟩, true⟩
    ⟨"./", "m", false⟩
    ⟨some "u", true, true, none, ⟨[], [], []⟩, none, true, "G"⟩
    ⟨some "u", true, true, none,
      ⟨[("modA", Entry.dir [("f", Entry.file "x")])], [], []⟩,
      some (String.mk (encodeLog [fmt2 (fmt2 "G" "modules") "modA"])), true, "G"⟩
    rfl (by unfold cleanStr; decide)
    (fun u b n r hf => by
      injection hf with hn hr
      subst hr
      refine ⟨?_, ?_⟩
      · intro q hq
        simp at hq
        rw [hq]
        unfold cleanStr
        decide
      · intro q hq
        simp at hq)
    happly
  simpa using h
